import Mathlib

/-!
# Verification of `build/src/utils/image-info-extractor.ts`

A shallow embedding of the image SBOM extractor of this repository.  The
TypeScript source drives a helper container through shell commands and parses
their textual output into uniform `PackageInfo` records.  We model:

* JavaScript string/object primitives used by the source (`String.prototype
  .indexOf`, `String.prototype.substring` with its clamp-and-swap semantics,
  `split`, object key assignment with insertion-order preservation),
* the data model (`PackageInfo`, `DistroInfo`, `ExtractedInfo`, ...),
* every extractor function of the source, over an environment `Env` holding
  the external oracles the source imports or shells out to (the excluded
  `config` module, `JSON.parse`, JavaScript `RegExp` for the patterns that
  are built from configuration, and the container runtime), and
* the orchestrator `getAllContentInfo` with its try/catch cleanup, over a
  trace of container-level events so that command issuance and container
  start/removal can be counted.

Effectful code (`await`-sequenced container commands) is modelled by the
monad `CM` below: a computation reads the environment and returns the list
of issued events together with an `Except` result, errors short-circuiting
exactly as a thrown exception does in the source.
-/

set_option autoImplicit false
set_option linter.unusedVariables false

namespace ImageInfoExtractor

/-- Errors are carried as plain message strings, as in the source where the
thrown values are `Error` objects holding a message (and, for spawn failures,
the captured output in `err.result`). -/
abbrev Err := String

/-! ## JavaScript primitives -/

/-- JavaScript property read `obj[key]` on a plain object, modelled as the
first binding of the key in an insertion-ordered association list
(`undefined` becomes `none`). -/
def jsLookup {α : Type} (l : List (String × α)) (k : String) : Option α :=
  match l with
  | [] => none
  | (k', v) :: rest => if k' = k then some v else jsLookup rest k

/-- JavaScript property write `obj[key] = v`: an existing key keeps its
insertion position and is overwritten, a new key is appended. -/
def jsObjectSet {α : Type} (l : List (String × α)) (k : String) (v : α) :
    List (String × α) :=
  if l.any (fun p => p.1 = k) then
    l.map (fun p => if p.1 = k then (k, v) else p)
  else
    l ++ [(k, v)]

/-- The merge loop `for (x in other) { merged[x] = other[x] }` starting from a
copy of `base`: caller entries overwrite default entries of the same name,
defaults keep their leading position. -/
def jsObjectMerge {α : Type} (base other : List (String × α)) :
    List (String × α) :=
  other.foldl (fun acc p => jsObjectSet acc p.1 p.2) base

/-- `String.prototype.split` with a one-character separator, on the character
list of the string.  `splitOnChar c l` always returns one more chunk than
there are occurrences of `c` in `l`. -/
def splitOnChar (c : Char) : List Char → List (List Char)
  | [] => [[]]
  | x :: xs =>
    let r := splitOnChar c xs
    if x = c then [] :: r
    else
      match r with
      | h :: t => (x :: h) :: t
      | [] => [[x]]

theorem splitOnChar_ne_nil (c : Char) (l : List Char) : splitOnChar c l ≠ [] := by
  induction l with
  | nil => simp [splitOnChar]
  | cons x xs ih =>
    cases hr : splitOnChar c xs with
    | nil => exact absurd hr ih
    | cons a t => by_cases h : x = c <;> simp [splitOnChar, h, hr]

theorem splitOnChar_length (c : Char) (l : List Char) :
    (splitOnChar c l).length = l.count c + 1 := by
  induction l with
  | nil => simp [splitOnChar]
  | cons x xs ih =>
    by_cases h : x = c
    · simp [splitOnChar, h, List.count_cons, ih]
    · cases hr : splitOnChar c xs with
      | nil => exact absurd hr (splitOnChar_ne_nil c xs)
      | cons a t =>
        simp [splitOnChar, hr, List.count_cons, h] at ih ⊢
        omega

/-- Splitting a string on a one-character separator (used for `split('=')`
and `split('\n')` in the source). -/
def jsSplitChar (s : String) (c : Char) : List String :=
  (splitOnChar c s.data).map String.mk

/-- First index at which `needle` occurs in `hay`, `-1` when absent:
`String.prototype.indexOf` on character lists. -/
def listIndexOf (hay needle : List Char) : Int :=
  if needle.isPrefixOf hay then 0
  else
    match hay with
    | [] => -1
    | _ :: t =>
      let r := listIndexOf t needle
      if r = -1 then -1 else r + 1

/-- `String.prototype.indexOf`. -/
def jsIndexOf (s pat : String) : Int :=
  listIndexOf s.data pat.data

/-- `String.prototype.substring(a, b)`: both indices are clamped into
`[0, length]` (negative values become `0`) and swapped when `a > b`. -/
def jsSubstring (s : String) (a b : Int) : String :=
  let len : Int := Int.ofNat s.length
  let aa := min (max a 0) len
  let bb := min (max b 0) len
  let lo := (min aa bb).toNat
  let hi := (max aa bb).toNat
  String.mk ((s.data.drop lo).take (hi - lo))

/-- `String.prototype.replace(pattern, replacement)` with a plain-string
pattern: only the first occurrence is replaced (the source uses this for the
`${PACKAGE}` / `${VERSION}` template substitution). -/
def listReplaceFirst (l pat repl : List Char) : List Char :=
  match l with
  | [] => []
  | x :: t =>
    if pat.isPrefixOf l then repl ++ l.drop pat.length
    else x :: listReplaceFirst t pat repl

def jsReplaceFirst (s pat repl : String) : String :=
  String.mk (listReplaceFirst s.data pat.data repl.data)

/-- `str.replace(/x/g, y)` for a one-character pattern: global replacement. -/
def jsReplaceAllChar (s : String) (c : Char) (repl : String) : String :=
  String.mk (s.data.flatMap (fun x => if x = c then repl.data else [x]))

/-- White space for `String.prototype.trim` (the ASCII part; the non-ASCII
code points JavaScript also trims do not occur in any string this program
builds). -/
def isJsWhitespace (c : Char) : Bool :=
  c = ' ' || c = '\t' || c = '\n' || c = '\r' || c = '\x0b' || c = '\x0c'

/-- `String.prototype.trim`. -/
def jsTrim (s : String) : String :=
  String.mk
    (((s.data.dropWhile isJsWhitespace).reverse.dropWhile isJsWhitespace).reverse)

/-- JavaScript truthiness of a nullable string: `null`/`undefined` and the
empty string are falsy. -/
def jsTruthyStr : Option String → Bool
  | none => false
  | some s => s ≠ ""

/-- `value || default` on a nullable string. -/
def jsOrStr (v : Option String) (dflt : String) : String :=
  if jsTruthyStr v then v.getD "" else dflt

/-! ## Data model (interfaces of the source file)

TypeScript declares `PackageInfo.version : string`, but several extractors
store a possibly-`undefined` value in it (pip/pipx resolve requested names
against a map without checking presence), so `version` and all optional
fields are modelled as `Option`. -/

structure PackageInfo where
  name : String
  version : Option String
  url : Option String
  path : Option String
  annotation : Option String
  poolUrl : Option String
  poolKeyUrl : Option String
  commitHash : Option String
  cgIgnore : Option Bool
  markdownIgnore : Option Bool
  deriving Repr, DecidableEq

/-- An all-`undefined` record: object literals of the source that mention only
some fields are written `{ emptyPackageInfo with ... }`. -/
def emptyPackageInfo : PackageInfo :=
  ⟨"", none, none, none, none, none, none, none, none, none⟩

structure ImageInfo where
  name : String
  digest : String
  user : String
  deriving Repr, DecidableEq

/-- `DistroInfo` is built as an open string-keyed lookup (`Lookup<string>`)
by `getLinuxDistroInfo` and then cast; we keep the lookup representation. -/
abbrev DistroInfo := List (String × String)

/-- Field read `distroInfo.id`.  A missing key is `undefined` in the source;
it is conflated with the empty string here, which only matters for inputs
whose os-release has no `ID` line (no claim depends on that case). -/
def distroId (d : DistroInfo) : String :=
  (jsLookup d "id").getD ""

/-- `DependencyInfoExtractionSettings` (declared in the excluded
`domain/definition` module; the fields below are the ones the source reads). -/
structure DependencyInfoExtractionSettings where
  name : String
  annotation : Option String
  cgIgnore : Option Bool
  markdownIgnore : Option Bool
  deriving Repr, DecidableEq

/-- A Linux package-list entry is `string | DependencyInfoExtractionSettings`. -/
inductive LinuxPkgEntry where
  | plain (name : String)
  | withSettings (s : DependencyInfoExtractionSettings)
  deriving Repr, DecidableEq

def LinuxPkgEntry.entryName : LinuxPkgEntry → String
  | .plain n => n
  | .withSettings s => s.name

/-- `OtherDependencyInfoExtractionSettings`: fields the source reads.  A field
is `none` when the object does not carry the key (so a `for ... in` over the
object skips it). -/
structure OtherDependencyInfoExtractionSettings where
  versionCommand : Option String
  downloadUrl : Option String
  path : Option String
  annotation : Option String
  cgIgnore : Option Bool
  markdownIgnore : Option Bool
  deriving Repr, DecidableEq

/-- A node of the parsed `npm ls --json` dependency tree. -/
inductive NpmPackageJson where
  | node (version : Option String)
      (dependencies : Option (List (String × NpmPackageJson)))

def NpmPackageJson.version : NpmPackageJson → Option String
  | .node v _ => v

def NpmPackageJson.dependencies :
    NpmPackageJson → Option (List (String × NpmPackageJson))
  | .node _ d => d

/-- `LinuxPackageInfoExtractorParams` from the excluded `config` module: the
four fields the source reads. -/
structure LinuxPackageInfoExtractorParams where
  listCommand : String
  getUriCommand : String
  lineRegEx : String
  poolUriMatchRegEx : String
  deriving Repr, DecidableEq

/-- `DependencyInfoExtractionSettingsGroup`: the per-ecosystem dependency
specification handed to `getAllContentInfo`.  An absent (`undefined`) list is
conflated with the empty list, matching the `= []` / `= {}` parameter
defaults of the extractors.  `byKey` models the untyped
`dependencies[distroInfo.id]` indexing of
`getLinuxPackageManagerDependencies`. -/
structure DependencyInfoExtractionSettingsGroup where
  byKey : String → Option (List LinuxPkgEntry)
  npm : List String
  pip : List String
  pipx : List String
  gem : List String
  cargo : List (String × Option String)
  go : List (String × Option String)
  git : List (String × String)
  other : List (String × Option OtherDependencyInfoExtractionSettings)
  languages : List (String × Option OtherDependencyInfoExtractionSettings)
  manual : List String

structure ExtractedInfo where
  image : ImageInfo
  distro : DistroInfo
  linux : List PackageInfo
  npm : List PackageInfo
  pip : List PackageInfo
  pipx : List PackageInfo
  gem : List PackageInfo
  cargo : List PackageInfo
  go : List PackageInfo
  git : List PackageInfo
  other : List PackageInfo
  languages : List PackageInfo
  manual : List String

/-! ## Effect model

Every observable interaction with the container runtime is recorded as an
`Event`; command execution, container start and container removal.  The
results of the external world (command output, `JSON.parse`, JavaScript
`RegExp` for configuration-built patterns, the excluded `config` module) are
supplied by an `Env`. -/

inductive Event where
  | cmd (command : String)
  | startC (imageTag : String) (containerName : String)
  | removeC (containerName : String)
  deriving Repr, DecidableEq

structure Env where
  /-- Output of `getCommandOutputFromContainer` for a given command, or the
  thrown error when the underlying process fails. -/
  run : String → Except Err String
  /-- `Date.now()` rendered into the generated container name. -/
  now : String
  /-- Result of the `docker run -d ...` spawn in `startContainerForProcessing`. -/
  startResult : Except Err Unit
  /-- Result of the `docker rm -f` spawn in `removeProcessingContainer`. -/
  removeResult : Except Err Unit
  /-- `docker inspect --format {{.Image}}`. -/
  inspectImage : String → Except Err String
  /-- `docker inspect --format {{index .RepoDigests 0}}`. -/
  inspectRepoDigests : String → Except Err String
  /-- `new RegExp(pattern).exec(input)` capture group 1, for patterns built
  from configuration or interpolated names. -/
  regex1 : String → String → Option String
  /-- `new RegExp(pattern).exec(input)` capture groups 1 and 2 (the Linux
  version-line regex). -/
  regex2 : String → String → Option (String × String)
  /-- `JSON.parse` of `npm ls --global --depth 1 --json` output. -/
  parseNpm : String → Except Err (List (String × NpmPackageJson))
  /-- `JSON.parse` of `pip list --format json` output. -/
  parsePip : String → Except Err (List (String × String))
  /-- `/package\s(.+)\s(.+),/.exec(line)` capture groups 1 and 2. -/
  pipxLine : String → Option (String × String)
  /-- `snakeCaseToCamelCase` from the excluded `config` module. -/
  snakeCaseToCamelCase : String → String
  /-- `getLinuxPackageManagerForDistro` from the excluded `config` module. -/
  getLinuxPackageManagerForDistro : String → String
  /-- `getPackageInfoExtractorParams` from the excluded `config` module. -/
  getPackageInfoExtractorParams : String → LinuxPackageInfoExtractorParams
  /-- `getFallbackPoolUrl` from the excluded `config` module. -/
  getFallbackPoolUrl : String → Option String
  /-- `getPoolKeyForPoolUrl` from the excluded `config` module. -/
  getPoolKeyForPoolUrl : String → Option String
  /-- `getDefaultDependencies` for the keys whose value is a plain name list
  (`npm`, `pip`, `pipx`, `gem`). -/
  depsStr : String → Option (List String)
  /-- `getDefaultDependencies` for package-manager keys (Linux packages). -/
  depsLinux : String → Option (List LinuxPkgEntry)
  /-- `getDefaultDependencies` for the keys whose value is a name-to-command
  lookup (`cargo`, `go`). -/
  depsLookup : String → Option (List (String × Option String))
  /-- `getDefaultDependencies` for the `git` key (name-to-path lookup). -/
  depsGit : String → Option (List (String × String))
  /-- `getDefaultDependencies` for the `other` / `languages` keys. -/
  depsOther : String →
    Option (List (String × Option OtherDependencyInfoExtractionSettings))
  /-- `getConfig('otherDependencyDefaultSettings', null)`. -/
  otherDefaultSettings :
    Option (List (String × OtherDependencyInfoExtractionSettings))

/-- A computation of the extractor: reads the environment, issues events,
and either returns a value or propagates a thrown error. -/
def CM (α : Type) : Type := Env → List Event × Except Err α

instance : Monad CM where
  pure a := fun _ => ([], .ok a)
  bind x f := fun env =>
    let r := x env
    match r.2 with
    | .error e => (r.1, .error e)
    | .ok a => (r.1 ++ (f a env).1, (f a env).2)

@[simp] theorem CM.pure_apply {α : Type} (a : α) (env : Env) :
    (pure a : CM α) env = ([], .ok a) := rfl

@[simp] theorem CM.bind_apply {α β : Type} (x : CM α) (f : α → CM β) (env : Env) :
    (x >>= f) env =
      match (x env).2 with
      | .error e => ((x env).1, .error e)
      | .ok a => ((x env).1 ++ (f a env).1, (f a env).2) := rfl

/-- One `await getCommandOutputFromContainer(target, command, ...)` step of an
extractor: the command is recorded and its result comes from the
environment. -/
def runCommand (command : String) : CM String :=
  fun env => ([Event.cmd command], env.run command)

/-- `throw new Error(message)`. -/
def throwErr {α : Type} (e : Err) : CM α := fun _ => ([], .error e)

/-- Lift a pure fallible computation (no events). -/
def liftExcept {α : Type} (r : Except Err α) : CM α := fun _ => ([], r)

/-- Read a pure value from the environment (no events). -/
def readEnv {α : Type} (f : Env → α) : CM α := fun env => ([], .ok (f env))

/-- `try { ... } catch (e) { ... }`: on a thrown error the handler runs after
the events of the failed body. -/
def tryCatchCM {α : Type} (x : CM α) (h : Err → CM α) : CM α := fun env =>
  let r := x env
  match r.2 with
  | .error e => ((r.1 ++ (h e env).1), (h e env).2)
  | .ok _ => r

/-- Sequential `await` over a list (the source's `for` loops and `.map` with
`await` inside). -/
def CM.mapList {α β : Type} (f : α → CM β) : List α → CM (List β)
  | [] => pure []
  | a :: l => do
    let b ← f a
    let bs ← CM.mapList f l
    pure (b :: bs)

/-! ## The command runner and container lifecycle -/

/-- `isContainerName`: a target is treated as a running helper container
exactly when it carries the generated-name marker at position 0. -/
def isContainerName (imageTagOrContainerName : String) : Bool :=
  jsIndexOf imageTagOrContainerName "vscdc--extract--" = 0

/-- The `docker` argument prefix selected by `getCommandOutputFromContainer`:
`exec` against a running helper container, `run --init --privileged --rm`
against a bare image tag. -/
def commandRunArgs (imageTagOrContainerName : String) (forceRoot : Bool) :
    List String :=
  if isContainerName imageTagOrContainerName then
    ["exec"] ++ (if forceRoot then ["-u", "root"] else [])
  else
    ["run", "--init", "--privileged", "--rm"] ++
      (if forceRoot then ["-u", "root"] else [])

/-- The sentinel-framed command handed to `bash`. -/
def wrappedCommand (command : String) : String :=
  "bash -c \"set -e && echo ~~~BEGIN~~~ && " ++ command ++
    " && echo && echo ~~~END~~~\""

/-- The spawn-level model of `getCommandOutputFromContainer`: `spawn` is
`asyncUtils.spawn('docker', runArgs, ...)`, which resolves with the captured
output on exit code 0 and rejects (here: `.error`) on a non-zero exit.  The
sentinel extraction uses JavaScript `indexOf` / `substring` semantics. -/
def getCommandOutputFromContainer (spawn : List String → Except Err String)
    (imageTagOrContainerName command : String) (forceRoot : Bool) :
    Except Err String :=
  let runArgs := commandRunArgs imageTagOrContainerName forceRoot ++
    [imageTagOrContainerName, wrappedCommand command]
  match spawn runArgs with
  | .error e => .error e
  | .ok result =>
    .ok (jsTrim (jsSubstring result (jsIndexOf result "~~~BEGIN~~~" + 11)
      (jsIndexOf result "~~~END~~~")))

/-- `startContainerForProcessing`: spawns the detached idle container and
returns the generated marker-carrying name. -/
def startContainerForProcessing (imageTag : String) : CM String := fun env =>
  let containerName := "vscdc--extract--" ++ env.now
  ([Event.startC imageTag containerName],
   match env.startResult with
   | .ok _ => .ok containerName
   | .error e => .error e)

/-- `removeProcessingContainer`: `docker rm -f` on the helper container. -/
def removeProcessingContainer (containerName : String) : CM Unit := fun env =>
  ([Event.removeC containerName], env.removeResult)

/-! ## Distro identity reader -/

/-- Body of the `osInfoLines.forEach` loop of `getLinuxDistroInfo`: a line is
split on `=`; only a two-part split yields an entry, whose key is the trimmed
left side run through `snakeCaseToCamelCase` and whose value is the right
side with every `"` removed (`/"/g`) and then trimmed. -/
def osReleaseLineEntry (snakeToCamel : String → String) (infoLine : String) :
    Option (String × String) :=
  let infoLineParts := jsSplitChar infoLine '='
  if infoLineParts.length = 2 then
    some (snakeToCamel (jsTrim (infoLineParts.getD 0 "")),
          jsTrim (jsReplaceAllChar (infoLineParts.getD 1 "") '"' ""))
  else
    none

def getLinuxDistroInfo (imageTagOrContainerName : String) : CM DistroInfo := do
  let osInfoCommandOutput ← runCommand "cat /etc/os-release"
  let cam ← readEnv Env.snakeCaseToCamelCase
  pure ((jsSplitChar osInfoCommandOutput '\n').foldl
    (fun info infoLine =>
      match osReleaseLineEntry cam infoLine with
      | some (k, v) => jsObjectSet info k v
      | none => info) [])

/-! ## Linux package extractor -/

/-- `packageName.replace(/\+/g, '\\+').replace(/\./g, '\\.')`. -/
def sanitizedPackage (packageName : String) : String :=
  jsReplaceAllChar (jsReplaceAllChar packageName '+' "\\+") '.' "\\."

/-- `version.replace(/\+/g, '\\+').replace(/\./g, '\\.').replace(/:/g, '%3a')`. -/
def sanitizedVersion (version : String) : String :=
  jsReplaceAllChar
    (jsReplaceAllChar (jsReplaceAllChar version '+' "\\+") '.' "\\.")
    ':' "%3a"

/-- The URI regex with `${PACKAGE}` / `${VERSION}` substituted (plain-string
`replace`: first occurrence only). -/
def poolUriPattern (config : LinuxPackageInfoExtractorParams)
    (packageName version : String) : String :=
  jsReplaceFirst (jsReplaceFirst config.poolUriMatchRegEx
    "${PACKAGE}" (sanitizedPackage packageName)) "${VERSION}" (sanitizedVersion version)

/-- `getPoolUrlFromPackageVersionListOutput`: substitutes the sanitized name
and version into the configured URI regex template (escaping `+` and `.`,
and percent-encoding `:` in the version), looks for a match in the URI
command output, and otherwise falls back to the static per-package URL. -/
def getPoolUrlFromPackageVersionListOutput
    (regex1 : String → String → Option String)
    (getFallbackPoolUrl : String → Option String)
    (packageUriCommandOutput : String)
    (config : LinuxPackageInfoExtractorParams)
    (packageName version : String) : Option String :=
  match regex1 (poolUriPattern config packageName version)
      packageUriCommandOutput with
  | some u => some u
  | none => match getFallbackPoolUrl packageName with
    | some fallbackPoolUrl => some fallbackPoolUrl
    | none => none

/-- `settings[packageName] || {}`: the empty-object fallback carries no
fields. -/
def emptyDepSettings : DependencyInfoExtractionSettings :=
  ⟨"", none, none, none⟩

/-- Body of the `packageVersionList.forEach` loop of `getLinuxPackageInfo`.
`.ok none` is a silently skipped line (empty, unparsable, or the not-found
sentinel — the latter two only log warnings); the error is the fatal
"No pool URL found" case. -/
def processLinuxVersionLine
    (regex2 : String → String → Option (String × String))
    (regex1 : String → String → Option String)
    (getFallbackPoolUrl : String → Option String)
    (getPoolKeyForPoolUrl : String → Option String)
    (params : LinuxPackageInfoExtractorParams)
    (settings : List (String × DependencyInfoExtractionSettings))
    (packageUriCommandOutput : String)
    (line : String) : Except Err (Option PackageInfo) :=
  let packageVersion := jsTrim line
  if packageVersion = "" then .ok none
  else
    match regex2 params.lineRegEx packageVersion with
    | none => .ok none
    | some (packageName, version) =>
      let extractionSettings := (jsLookup settings packageName).getD emptyDepSettings
      let cgIgnore := extractionSettings.cgIgnore.getD true
      let poolUrl := getPoolUrlFromPackageVersionListOutput regex1
        getFallbackPoolUrl packageUriCommandOutput params packageName version
      let poolKey := match poolUrl with
        | some u => getPoolKeyForPoolUrl u
        | none => none
      if poolUrl.isNone && !cgIgnore then
        .error "(!) No pool URL found to register package!"
      else
        .ok (some { emptyPackageInfo with
          name := packageName
          version := some version
          poolUrl := poolUrl
          poolKeyUrl := poolKey
          annotation := DependencyInfoExtractionSettings.annotation extractionSettings
          cgIgnore := some cgIgnore
          markdownIgnore := extractionSettings.markdownIgnore })

def getLinuxPackageInfo (imageTagOrContainerName : String)
    (packageListIn : List LinuxPkgEntry) (linuxDistroInfo : DistroInfo) :
    CM (List PackageInfo) := do
  let env ← readEnv id
  let packageManager := env.getLinuxPackageManagerForDistro (distroId linuxDistroInfo)
  let defaultPackages := (env.depsLinux packageManager).getD []
  let packageList := defaultPackages ++ packageListIn
  if packageList.length = 0 then
    pure []
  else do
    let settings := packageList.foldl (fun obj current =>
      match current with
      | .plain name => jsObjectSet obj name
          { name := name, annotation := none, cgIgnore := none,
            markdownIgnore := none }
      | .withSettings s => jsObjectSet obj s.name s) []
    let packageListCommandPart := packageList.foldl
      (fun prev current => prev ++ " " ++ current.entryName) ""
    let params := env.getPackageInfoExtractorParams packageManager
    let packageVersionListOutput ← runCommand (params.listCommand ++
      packageListCommandPart ++ " || echo 'Some packages were not found.'")
    let packageUriCommandOutput ← runCommand (params.getUriCommand ++
      packageListCommandPart ++ " || echo 'Some packages were not found.'")
    let entries ← liftExcept ((jsSplitChar packageVersionListOutput '\n').mapM
      (processLinuxVersionLine env.regex2 env.regex1 env.getFallbackPoolUrl
        env.getPoolKeyForPoolUrl params settings packageUriCommandOutput))
    pure entries.reduceOption

/-! ## npm extractor -/

/-- The `for (let packageInNpmOutput in npmOutput.dependencies)` fallback
search of `getNpmGlobalPackageInfo`: the first top-level package whose own
`dependencies` object contains the requested name wins (the loop breaks). -/
def npmNestedSearch (dependencies : List (String × NpmPackageJson))
    (packageName : String) : Option NpmPackageJson :=
  match dependencies with
  | [] => none
  | (_, p) :: rest =>
    match p.dependencies with
    | some packageDependencies =>
      match jsLookup packageDependencies packageName with
      | some packageJson => some packageJson
      | none => npmNestedSearch rest packageName
    | none => npmNestedSearch rest packageName

/-- Body of the `.map` over requested npm names: top-level lookup, then the
nested one-level search, and a fatal error when no version is available. -/
def npmResolve (npmOutputDependencies : List (String × NpmPackageJson))
    (npmOutputRaw : String) (packageName : String) : Except Err PackageInfo :=
  let packageJson := jsLookup npmOutputDependencies packageName
  let packageJson := match packageJson with
    | some p => some p
    | none => npmNestedSearch npmOutputDependencies packageName
  match packageJson with
  | none => .error ("Unable to parse version for " ++ packageName ++
      " from npm ls output: " ++ npmOutputRaw)
  | some p =>
    match p.version with
    | none => .error ("Unable to parse version for " ++ packageName ++
        " from npm ls output: " ++ npmOutputRaw)
    | some v => .ok { emptyPackageInfo with name := packageName, version := some v }

def npmListCommand (packageListString : String) : String :=
  "bash -l -c 'set -e && npm ls --global --depth 1 --json " ++
    packageListString ++ "' 2>/dev/null"

def getNpmGlobalPackageInfo (imageTagOrContainerName : String)
    (packageNameListIn : List String) : CM (List PackageInfo) := do
  let env ← readEnv id
  let defaultPackages := (env.depsStr "npm").getD []
  let packageNameList := defaultPackages ++ packageNameListIn
  if packageNameList.length = 0 then
    pure []
  else do
    let packageListString := packageNameList.foldl
      (fun prev current => prev ++ " " ++ current) ""
    let npmOutputRaw ← runCommand (npmListCommand packageListString)
    let npmOutput ← liftExcept (env.parseNpm npmOutputRaw)
    liftExcept (packageNameList.mapM (npmResolve npmOutput npmOutputRaw))

/-! ## pip / pipx extractor -/

def getPipVersionLookup : CM (List (String × String)) := do
  let packageVersionListOutput ← runCommand "pip list --format json"
  let env ← readEnv id
  let packageVersionList ← liftExcept (env.parsePip packageVersionListOutput)
  pure (packageVersionList.foldl
    (fun prev current => jsObjectSet prev current.1 current.2) [])

def getPipxVersionLookup : CM (List (String × String)) := do
  let packageVersionListOutput ← runCommand "pipx list"
  let env ← readEnv id
  pure ((jsSplitChar packageVersionListOutput '\n').foldl
    (fun prev current =>
      match env.pipxLine current with
      | some (n, v) => jsObjectSet prev n v
      | none => prev) [])

def getPipPackageInfo (imageTagOrContainerName : String)
    (packageNameListIn : List String) (usePipx : Bool) :
    CM (List PackageInfo) := do
  let env ← readEnv id
  let defaultPackages := (env.depsStr (if usePipx then "pipx" else "pip")).getD []
  let packageNameList := defaultPackages ++ packageNameListIn
  if packageNameList.length = 0 then
    pure []
  else do
    let versionLookup ← if usePipx then getPipxVersionLookup else getPipVersionLookup
    pure (packageNameList.map (fun packageName =>
      { emptyPackageInfo with
        name := packageName
        version := jsLookup versionLookup packageName }))

/-! ## git repository extractor -/

def gitRemoteAndCommitCommand (repoPath : String) : String :=
  "cd \\\"" ++ repoPath ++ "\\\" && if [ -f \\\".git-remote-and-commit\\\" ]; " ++
    "then cat .git-remote-and-commit; else git remote get-url origin && " ++
    "git log -n 1 --pretty=format:%H -- . | tee /dev/null; fi"

/-- The merged name-to-path lookup the git extractor iterates (defaults of
the `git` key first, caller entries overriding by name). -/
def gitMergedRepos (depsGit : String → Option (List (String × String)))
    (gitRepos : List (String × String)) : List (String × String) :=
  match depsGit "git" with
  | some defaultPackages => jsObjectMerge defaultPackages gitRepos
  | none => gitRepos

def getGitRepositoryInfo (imageTagOrContainerName : String)
    (gitReposIn : List (String × String)) : CM (List PackageInfo) := do
  let env ← readEnv id
  let gitRepos := gitMergedRepos env.depsGit gitReposIn
  -- the `if (!gitRepos) return []` guard of the source never fires: the
  -- merged value is always an object, and objects are truthy in JavaScript
  CM.mapList (fun pr => do
      let repoName := pr.1
      let repoPath := pr.2
      -- `typeof repoPath === 'string'` always holds for `Lookup<string>` entries
      let remoteAndCommitOutput ← runCommand (gitRemoteAndCommitCommand repoPath)
      let parts := jsSplitChar remoteAndCommitOutput '\n'
      let gitRemote := parts.getD 0 ""
      let gitCommit := parts.getD 1 ""
      if gitRemote = "" || gitCommit = "" then
        throwErr ("Unable to determine git remote or commit for " ++ repoName ++ ".")
      else
        pure { emptyPackageInfo with
          name := repoName
          path := some repoPath
          url := some gitRemote
          commitHash := some gitCommit })
    gitRepos

/-! ## other / languages extractor -/

/-- Field override of the `for (let settingName in dependency)` copy loop:
a field present on the caller entry replaces the default-table field. -/
def overrideOpt {α : Type} (dep base : Option α) : Option α :=
  match dep with
  | some x => some x
  | none => base

def mergeOtherDefaultSettings
    (otherDefaultSettings :
      Option (List (String × OtherDependencyInfoExtractionSettings)))
    (otherName : String)
    (dependency : Option OtherDependencyInfoExtractionSettings) :
    Except Err OtherDependencyInfoExtractionSettings :=
  match otherDefaultSettings with
  | none =>
    (match dependency with
     | none => .error ("No extraction settings found for " ++ otherName ++ ".")
     | some d => .ok d)
  | some table =>
    match jsLookup table otherName with
    | none =>
      (match dependency with
       | none => .error ("No extraction settings found for " ++ otherName ++ ".")
       | some d => .ok d)
    | some dflt =>
      match dependency with
      | none => .ok dflt
      | some dep => .ok
          { versionCommand := overrideOpt dep.versionCommand dflt.versionCommand
            downloadUrl := overrideOpt dep.downloadUrl dflt.downloadUrl
            path := overrideOpt dep.path dflt.path
            annotation := overrideOpt (OtherDependencyInfoExtractionSettings.annotation dep) (OtherDependencyInfoExtractionSettings.annotation dflt)
            cgIgnore := overrideOpt dep.cgIgnore dflt.cgIgnore
            markdownIgnore := overrideOpt dep.markdownIgnore dflt.markdownIgnore }

/-- The merged lookup the other/languages extractor iterates (defaults of the
`otherType` key first, caller entries overriding by name). -/
def otherMergedList
    (depsOther : String → Option (List (String × Option OtherDependencyInfoExtractionSettings)))
    (otherType : String)
    (otherDependencyList : List (String × Option OtherDependencyInfoExtractionSettings)) :
    List (String × Option OtherDependencyInfoExtractionSettings) :=
  match depsOther otherType with
  | some defaultPackages => jsObjectMerge defaultPackages otherDependencyList
  | none => otherDependencyList

def getOtherDependencyInfo (imageTagOrContainerName : String)
    (otherDependencyListIn :
      List (String × Option OtherDependencyInfoExtractionSettings))
    (otherType : String) : CM (List PackageInfo) := do
  let env ← readEnv id
  let otherDependencyList := otherMergedList env.depsOther otherType otherDependencyListIn
  -- the `if (!otherDependencyList) return []` guard never fires (objects are
  -- truthy in JavaScript)
  CM.mapList (fun pr => do
      let otherName := pr.1
      let otherSettings ← liftExcept
        (mergeOtherDefaultSettings env.otherDefaultSettings otherName pr.2)
      -- `typeof otherSettings === 'object'` always holds for a returned record
      if jsTruthyStr otherSettings.versionCommand then do
        let otherVersion ← runCommand (otherSettings.versionCommand.getD "")
        pure { emptyPackageInfo with
          name := otherName
          version := some otherVersion
          url := otherSettings.downloadUrl
          path := otherSettings.path
          annotation := OtherDependencyInfoExtractionSettings.annotation otherSettings
          cgIgnore := otherSettings.cgIgnore
          markdownIgnore := otherSettings.markdownIgnore }
      else
        throwErr ("Missing versionCommand for " ++ otherName ++ "."))
    otherDependencyList

/-! ## gem extractor -/

def gemListCommand : String :=
  "bash -l -c 'set -e && gem list -d --local' 2>/dev/null"

def gemPattern (gem : String) : String :=
  "^" ++ gem ++ "\\s\\(([^\\),]+)"

def getGemPackageInfo (imageTagOrContainerName : String)
    (packageListIn : List String) : CM (List PackageInfo) := do
  let env ← readEnv id
  let defaultPackages := (env.depsStr "gem").getD []
  let packageList := defaultPackages ++ packageListIn
  if packageList.length = 0 then
    pure []
  else do
    let gemListOutput ← runCommand gemListCommand
    CM.mapList (fun gem =>
        match env.regex1 (gemPattern gem) gemListOutput with
        | none => throwErr ("Could not extract information about gem " ++ gem)
        | some gemVersion =>
          pure { emptyPackageInfo with name := gem, version := some gemVersion })
      packageList

/-! ## cargo extractor -/

/-- Greedy match of `[0-9]+\.[0-9]+\.[0-9]+` starting exactly at the head of
`l`.  For this pattern greedy matching without backtracking agrees with
JavaScript `RegExp`: shrinking a digit run leaves a digit where the literal
dot must match, so backtracking can never succeed where greed fails. -/
def matchSemverAt (l : List Char) : Option (List Char) :=
  let d1 := l.takeWhile Char.isDigit
  let r1 := l.dropWhile Char.isDigit
  if d1 = [] then none
  else
    match r1 with
    | '.' :: r2 =>
      let d2 := r2.takeWhile Char.isDigit
      let r3 := r2.dropWhile Char.isDigit
      if d2 = [] then none
      else
        match r3 with
        | '.' :: r4 =>
          let d3 := r4.takeWhile Char.isDigit
          if d3 = [] then none
          else some (d1 ++ '.' :: d2 ++ '.' :: d3)
        | _ => none
    | _ => none

/-- Leftmost match position, as JavaScript `exec` uses. -/
def findSemverList : List Char → Option (List Char)
  | [] => none
  | x :: t =>
    match matchSemverAt (x :: t) with
    | some m => some m
    | none => findSemverList t

/-- `new RegExp('[0-9]+\\.[0-9]+\\.[0-9]+', 'm').exec(s)?.[0]`. -/
def findSemver (s : String) : Option String :=
  (findSemverList s.data).map String.mk

/-- The merged package lookup the cargo extractor iterates.  Note: the source
reads the defaults of the `go` ecosystem here —
`getDefaultDependencies('go')` on the first line of `getCargoPackageInfo`. -/
def cargoMergedPackages
    (depsLookup : String → Option (List (String × Option String)))
    (cargoPackages : List (String × Option String)) :
    List (String × Option String) :=
  match depsLookup "go" with
  | some defaultPackages => jsObjectMerge defaultPackages cargoPackages
  | none => cargoPackages

/-- Body of the `for (let crate in cargoPackages)` loop: the probe command
(or the generic `<name> --version`) is run and the first
semantic-version-shaped substring of its output is extracted — also when an
explicit probe command was supplied. -/
def cargoCrateInfo (crate : String) (lookupCommand : Option String) :
    CM PackageInfo := do
  let versionCommand := jsOrStr lookupCommand (crate ++ " --version")
  let versionOutput ← runCommand versionCommand
  match findSemver versionOutput with
  | none => throwErr ("Could not extract information about crate " ++ crate)
  | some version =>
    pure { emptyPackageInfo with name := crate, version := some version }

def getCargoPackageInfo (imageTagOrContainerName : String)
    (cargoPackagesIn : List (String × Option String)) :
    CM (List PackageInfo) := do
  let env ← readEnv id
  let cargoPackages := cargoMergedPackages env.depsLookup cargoPackagesIn
  -- the `if (!cargoPackages) return []` guard never fires (objects are truthy)
  CM.mapList (fun pr => cargoCrateInfo pr.1 pr.2) cargoPackages

/-! ## go extractor -/

def goLogCommand : String := "cat /usr/local/etc/vscode-dev-containers/go.log"

def goVersionPattern (packageName : String) : String :=
  "downloading\\s*" ++ packageName ++ "\\s*v([0-9]+\\.[0-9]+\\.[0-9]+.*)\\n"

/-- Body of the `for (let packageName in goPackages)` loop: with a truthy
per-entry probe command, that command's output is the version verbatim;
without one, the version is mined from the persisted installer log with the
name-specific regex, the literal `latest` standing in when it does not
match. -/
def goPackageEntryInfo (regex1 : String → String → Option String)
    (packageInstallOutput : String) (packageName : String)
    (versionCommand : Option String) : CM PackageInfo := do
  if jsTruthyStr versionCommand then do
    let version ← runCommand (versionCommand.getD "")
    pure { emptyPackageInfo with name := packageName, version := some version }
  else
    pure { emptyPackageInfo with
      name := packageName
      version := some ((regex1 (goVersionPattern packageName)
        packageInstallOutput).getD "latest") }

/-- The merged package lookup the go extractor iterates (defaults of the
`go` key first, caller entries overriding by name). -/
def goMergedPackages
    (depsLookup : String → Option (List (String × Option String)))
    (goPackages : List (String × Option String)) :
    List (String × Option String) :=
  match depsLookup "go" with
  | some defaultPackages => jsObjectMerge defaultPackages goPackages
  | none => goPackages

def getGoPackageInfo (imageTagOrContainerName : String)
    (goPackagesIn : List (String × Option String)) : CM (List PackageInfo) := do
  let env ← readEnv id
  let goPackages := goMergedPackages env.depsLookup goPackagesIn
  -- the `if (!goPackages) return []` guard never fires: the merged value is
  -- always an object and objects — `{}` included — are truthy in JavaScript,
  -- so the log-reading command below runs even when no go package is requested
  let packageInstallOutput ← runCommand goLogCommand
  CM.mapList (fun pr => goPackageEntryInfo env.regex1 packageInstallOutput pr.1 pr.2)
    goPackages

/-! ## image info reader -/

/-- Lines 555-558 of the source: when the target is a helper container, the
underlying image id is looked up with `docker inspect --format {{.Image}}`. -/
def resolveImageReference (env : Env) (imageTagOrContainerName : String) :
    CM String :=
  if isContainerName imageTagOrContainerName then
    liftExcept (env.inspectImage (jsTrim imageTagOrContainerName))
  else
    pure imageTagOrContainerName

def getImageInfo (imageTagOrContainerName : String) : CM ImageInfo := do
  let env ← readEnv id
  let image ← resolveImageReference env imageTagOrContainerName
  let nameDigest ← tryCatchCM
    (do
      let imageNameAndDigest ← liftExcept (env.inspectRepoDigests image)
      let parts := jsSplitChar (jsTrim imageNameAndDigest) '@'
      pure (parts.getD 0 "", parts.getD 1 ""))
    (fun err =>
      -- `err.result.indexOf('Template parsing error') > 0`
      if jsIndexOf err "Template parsing error" > 0 then pure ("N/A", "N/A")
      else throwErr err)
  let nonRootUser ← runCommand "id -un 1000"
  pure { name := nameDigest.1, digest := nameDigest.2, user := nonRootUser }

/-! ## Orchestrator -/

def getLinuxPackageManagerDependencies
    (getLinuxPackageManagerForDistro : String → String)
    (dependencies : DependencyInfoExtractionSettingsGroup)
    (distroInfo : DistroInfo) : List LinuxPkgEntry :=
  match dependencies.byKey (distroId distroInfo) with
  | some l => l
  | none =>
    (dependencies.byKey (getLinuxPackageManagerForDistro (distroId distroInfo))).getD []

/-- The body of the `try` block of `getAllContentInfo` up to and excluding
the success-path container removal: the sequential awaits that assemble the
`ExtractedInfo` object literal, in source order. -/
def assembleContents (dependencies : DependencyInfoExtractionSettingsGroup)
    (containerName : String) : CM ExtractedInfo := do
  let distroInfo ← getLinuxDistroInfo containerName
  let env ← readEnv id
  let image ← getImageInfo containerName
  let linux ← getLinuxPackageInfo containerName
    (getLinuxPackageManagerDependencies env.getLinuxPackageManagerForDistro
      dependencies distroInfo) distroInfo
  let npm ← getNpmGlobalPackageInfo containerName dependencies.npm
  let pip ← getPipPackageInfo containerName dependencies.pip false
  let pipx ← getPipPackageInfo containerName dependencies.pipx true
  let gem ← getGemPackageInfo containerName dependencies.gem
  let cargo ← getCargoPackageInfo containerName dependencies.cargo
  let go ← getGoPackageInfo containerName dependencies.go
  let git ← getGitRepositoryInfo containerName dependencies.git
  let other ← getOtherDependencyInfo containerName dependencies.other "other"
  let languages ← getOtherDependencyInfo containerName dependencies.languages "languages"
  pure { image := image, distro := distroInfo, linux := linux, npm := npm,
         pip := pip, pipx := pipx, gem := gem, cargo := cargo, go := go,
         git := git, other := other, languages := languages,
         manual := dependencies.manual }

def getAllContentInfo (imageTag : String)
    (dependencies : DependencyInfoExtractionSettingsGroup) : CM ExtractedInfo := do
  let containerName ← startContainerForProcessing imageTag
  tryCatchCM
    (do
      let contents ← assembleContents dependencies containerName
      removeProcessingContainer containerName
      pure contents)
    (fun e => do
      removeProcessingContainer containerName
      throwErr e)

/-! # Verification

First, unfolding lemmas for the effect monad and the observation that the
extractor bodies issue only `Event.cmd` events — never a container start or
removal — which the cleanup analysis of the orchestrator relies on. -/

@[simp] theorem runCommand_apply (c : String) (env : Env) :
    runCommand c env = ([Event.cmd c], env.run c) := rfl

@[simp] theorem throwErr_apply {α : Type} (e : Err) (env : Env) :
    (throwErr e : CM α) env = ([], .error e) := rfl

@[simp] theorem liftExcept_apply {α : Type} (r : Except Err α) (env : Env) :
    liftExcept r env = ([], r) := rfl

@[simp] theorem readEnv_apply {α : Type} (f : Env → α) (env : Env) :
    readEnv f env = ([], .ok (f env)) := rfl

@[simp] theorem tryCatchCM_apply {α : Type} (x : CM α) (h : Err → CM α) (env : Env) :
    tryCatchCM x h env =
      match (x env).2 with
      | .error e => ((x env).1 ++ (h e env).1, (h e env).2)
      | .ok _ => x env := rfl

@[simp] theorem startContainerForProcessing_apply (t : String) (env : Env) :
    startContainerForProcessing t env =
      ([Event.startC t ("vscdc--extract--" ++ env.now)],
       match env.startResult with
       | .ok _ => .ok ("vscdc--extract--" ++ env.now)
       | .error e => .error e) := rfl

@[simp] theorem removeProcessingContainer_apply (n : String) (env : Env) :
    removeProcessingContainer n env = ([Event.removeC n], env.removeResult) := rfl

/-- A computation that issues only plain in-container commands: no container
start, no container removal. -/
def CmdOnly {α : Type} (m : CM α) : Prop :=
  ∀ env ev, ev ∈ (m env).1 → ∃ c, ev = Event.cmd c

theorem cmdOnly_pure {α : Type} (a : α) : CmdOnly (pure a : CM α) := by
  intro env ev h
  simp at h

theorem cmdOnly_bind {α β : Type} {x : CM α} {f : α → CM β}
    (hx : CmdOnly x) (hf : ∀ a, CmdOnly (f a)) : CmdOnly (x >>= f) := by
  intro env ev h
  rw [CM.bind_apply] at h
  cases hr : (x env).2 with
  | error e => rw [hr] at h; exact hx env ev h
  | ok a =>
    rw [hr] at h
    simp only [List.mem_append] at h
    cases h with
    | inl h => exact hx env ev h
    | inr h => exact hf a env ev h

theorem cmdOnly_runCommand (c : String) : CmdOnly (runCommand c) := by
  intro env ev h
  simp only [runCommand_apply, List.mem_singleton] at h
  exact ⟨c, h⟩

theorem cmdOnly_throwErr {α : Type} (e : Err) : CmdOnly (throwErr e : CM α) := by
  intro env ev h
  simp at h

theorem cmdOnly_liftExcept {α : Type} (r : Except Err α) :
    CmdOnly (liftExcept r) := by
  intro env ev h
  simp at h

theorem cmdOnly_readEnv {α : Type} (f : Env → α) : CmdOnly (readEnv f) := by
  intro env ev h
  simp at h

theorem cmdOnly_tryCatch {α : Type} {x : CM α} {h : Err → CM α}
    (hx : CmdOnly x) (hh : ∀ e, CmdOnly (h e)) : CmdOnly (tryCatchCM x h) := by
  intro env ev hm
  rw [tryCatchCM_apply] at hm
  cases hr : (x env).2 with
  | error e =>
    rw [hr] at hm
    simp only [List.mem_append] at hm
    cases hm with
    | inl hm => exact hx env ev hm
    | inr hm => exact hh e env ev hm
  | ok a =>
    rw [hr] at hm
    exact hx env ev hm

theorem cmdOnly_mapList {α β : Type} {f : α → CM β}
    (hf : ∀ a, CmdOnly (f a)) (l : List α) : CmdOnly (CM.mapList f l) := by
  induction l with
  | nil => exact cmdOnly_pure _
  | cons a t ih =>
    exact cmdOnly_bind (hf a) (fun b => cmdOnly_bind ih (fun bs => cmdOnly_pure _))

theorem cmdOnly_ite {α : Type} {c : Prop} [Decidable c] {x y : CM α}
    (hx : CmdOnly x) (hy : CmdOnly y) : CmdOnly (if c then x else y) := by
  by_cases h : c
  · rw [if_pos h]; exact hx
  · rw [if_neg h]; exact hy

theorem getLinuxDistroInfo_cmdOnly (t : String) :
    CmdOnly (getLinuxDistroInfo t) := by
  unfold getLinuxDistroInfo
  exact cmdOnly_bind (cmdOnly_runCommand _) (fun a =>
    cmdOnly_bind (cmdOnly_readEnv _) (fun b => cmdOnly_pure _))

theorem getImageInfo_cmdOnly (t : String) : CmdOnly (getImageInfo t) := by
  unfold getImageInfo resolveImageReference
  refine cmdOnly_bind (cmdOnly_readEnv _) (fun env => ?_)
  refine cmdOnly_bind (cmdOnly_ite (cmdOnly_liftExcept _) (cmdOnly_pure _)) (fun image => ?_)
  refine cmdOnly_bind (cmdOnly_tryCatch ?_ ?_) (fun nd => ?_)
  · exact cmdOnly_bind (cmdOnly_liftExcept _) (fun _ => cmdOnly_pure _)
  · intro e
    exact cmdOnly_ite (cmdOnly_pure _) (cmdOnly_throwErr _)
  · exact cmdOnly_bind (cmdOnly_runCommand _) (fun _ => cmdOnly_pure _)

theorem getLinuxPackageInfo_cmdOnly (t : String) (l : List LinuxPkgEntry)
    (d : DistroInfo) : CmdOnly (getLinuxPackageInfo t l d) := by
  unfold getLinuxPackageInfo
  refine cmdOnly_bind (cmdOnly_readEnv _) (fun env => ?_)
  refine cmdOnly_ite (cmdOnly_pure _) ?_
  refine cmdOnly_bind (cmdOnly_runCommand _) (fun a => ?_)
  refine cmdOnly_bind (cmdOnly_runCommand _) (fun b => ?_)
  exact cmdOnly_bind (cmdOnly_liftExcept _) (fun c => cmdOnly_pure _)

theorem getNpmGlobalPackageInfo_cmdOnly (t : String) (l : List String) :
    CmdOnly (getNpmGlobalPackageInfo t l) := by
  unfold getNpmGlobalPackageInfo
  refine cmdOnly_bind (cmdOnly_readEnv _) (fun env => ?_)
  refine cmdOnly_ite (cmdOnly_pure _) ?_
  refine cmdOnly_bind (cmdOnly_runCommand _) (fun a => ?_)
  exact cmdOnly_bind (cmdOnly_liftExcept _) (fun b => cmdOnly_liftExcept _)

theorem getPipVersionLookup_cmdOnly : CmdOnly getPipVersionLookup := by
  unfold getPipVersionLookup
  refine cmdOnly_bind (cmdOnly_runCommand _) (fun a => ?_)
  refine cmdOnly_bind (cmdOnly_readEnv _) (fun env => ?_)
  exact cmdOnly_bind (cmdOnly_liftExcept _) (fun b => cmdOnly_pure _)

theorem getPipxVersionLookup_cmdOnly : CmdOnly getPipxVersionLookup := by
  unfold getPipxVersionLookup
  refine cmdOnly_bind (cmdOnly_runCommand _) (fun a => ?_)
  exact cmdOnly_bind (cmdOnly_readEnv _) (fun env => cmdOnly_pure _)

theorem getPipPackageInfo_cmdOnly (t : String) (l : List String) (usePipx : Bool) :
    CmdOnly (getPipPackageInfo t l usePipx) := by
  cases usePipx with
  | false =>
    unfold getPipPackageInfo
    refine cmdOnly_bind (cmdOnly_readEnv _) (fun env => ?_)
    refine cmdOnly_ite (cmdOnly_pure _) ?_
    exact cmdOnly_bind getPipVersionLookup_cmdOnly (fun lookup => cmdOnly_pure _)
  | true =>
    unfold getPipPackageInfo
    refine cmdOnly_bind (cmdOnly_readEnv _) (fun env => ?_)
    refine cmdOnly_ite (cmdOnly_pure _) ?_
    exact cmdOnly_bind getPipxVersionLookup_cmdOnly (fun lookup => cmdOnly_pure _)

theorem getGemPackageInfo_cmdOnly (t : String) (l : List String) :
    CmdOnly (getGemPackageInfo t l) := by
  unfold getGemPackageInfo
  refine cmdOnly_bind (cmdOnly_readEnv _) (fun env => ?_)
  refine cmdOnly_ite (cmdOnly_pure _) ?_
  refine cmdOnly_bind (cmdOnly_runCommand _) (fun a => ?_)
  refine cmdOnly_mapList (fun gem => ?_) _
  cases env.regex1 (gemPattern gem) a with
  | none => exact cmdOnly_throwErr _
  | some v => exact cmdOnly_pure _

theorem cargoCrateInfo_cmdOnly (crate : String) (c : Option String) :
    CmdOnly (cargoCrateInfo crate c) := by
  unfold cargoCrateInfo
  refine cmdOnly_bind (cmdOnly_runCommand _) (fun out => ?_)
  cases findSemver out with
  | none => exact cmdOnly_throwErr _
  | some v => exact cmdOnly_pure _

theorem getCargoPackageInfo_cmdOnly (t : String)
    (l : List (String × Option String)) : CmdOnly (getCargoPackageInfo t l) := by
  unfold getCargoPackageInfo
  refine cmdOnly_bind (cmdOnly_readEnv _) (fun env => ?_)
  refine cmdOnly_mapList ?_ _
  intro pr
  exact cargoCrateInfo_cmdOnly pr.1 pr.2

theorem goPackageEntryInfo_cmdOnly (regex1 : String → String → Option String)
    (out packageName : String) (versionCommand : Option String) :
    CmdOnly (goPackageEntryInfo regex1 out packageName versionCommand) := by
  unfold goPackageEntryInfo
  refine cmdOnly_ite ?_ (cmdOnly_pure _)
  exact cmdOnly_bind (cmdOnly_runCommand _) (fun v => cmdOnly_pure _)

theorem getGoPackageInfo_cmdOnly (t : String)
    (l : List (String × Option String)) : CmdOnly (getGoPackageInfo t l) := by
  unfold getGoPackageInfo
  refine cmdOnly_bind (cmdOnly_readEnv _) (fun env => ?_)
  refine cmdOnly_bind (cmdOnly_runCommand _) (fun out => ?_)
  refine cmdOnly_mapList (fun pr => ?_) _
  exact goPackageEntryInfo_cmdOnly _ _ _ _

theorem getGitRepositoryInfo_cmdOnly (t : String) (l : List (String × String)) :
    CmdOnly (getGitRepositoryInfo t l) := by
  unfold getGitRepositoryInfo
  refine cmdOnly_bind (cmdOnly_readEnv _) (fun env => ?_)
  refine cmdOnly_mapList (fun pr => ?_) _
  refine cmdOnly_bind (cmdOnly_runCommand _) (fun out => ?_)
  exact cmdOnly_ite (cmdOnly_throwErr _) (cmdOnly_pure _)

theorem getOtherDependencyInfo_cmdOnly (t : String)
    (l : List (String × Option OtherDependencyInfoExtractionSettings))
    (otherType : String) : CmdOnly (getOtherDependencyInfo t l otherType) := by
  unfold getOtherDependencyInfo
  refine cmdOnly_bind (cmdOnly_readEnv _) (fun env => ?_)
  refine cmdOnly_mapList (fun pr => ?_) _
  refine cmdOnly_bind (cmdOnly_liftExcept _) (fun s => ?_)
  refine cmdOnly_ite ?_ (cmdOnly_throwErr _)
  exact cmdOnly_bind (cmdOnly_runCommand _) (fun v => cmdOnly_pure _)

theorem assembleContents_cmdOnly (deps : DependencyInfoExtractionSettingsGroup)
    (containerName : String) : CmdOnly (assembleContents deps containerName) := by
  unfold assembleContents
  refine cmdOnly_bind (getLinuxDistroInfo_cmdOnly _) (fun distroInfo => ?_)
  refine cmdOnly_bind (cmdOnly_readEnv _) (fun env => ?_)
  refine cmdOnly_bind (getImageInfo_cmdOnly _) (fun image => ?_)
  refine cmdOnly_bind (getLinuxPackageInfo_cmdOnly _ _ _) (fun linux => ?_)
  refine cmdOnly_bind (getNpmGlobalPackageInfo_cmdOnly _ _) (fun npm => ?_)
  refine cmdOnly_bind (getPipPackageInfo_cmdOnly _ _ _) (fun pip => ?_)
  refine cmdOnly_bind (getPipPackageInfo_cmdOnly _ _ _) (fun pipx => ?_)
  refine cmdOnly_bind (getGemPackageInfo_cmdOnly _ _) (fun gem => ?_)
  refine cmdOnly_bind (getCargoPackageInfo_cmdOnly _ _) (fun cargo => ?_)
  refine cmdOnly_bind (getGoPackageInfo_cmdOnly _ _) (fun go => ?_)
  refine cmdOnly_bind (getGitRepositoryInfo_cmdOnly _ _) (fun git => ?_)
  refine cmdOnly_bind (getOtherDependencyInfo_cmdOnly _ _ _) (fun other => ?_)
  exact cmdOnly_bind (getOtherDependencyInfo_cmdOnly _ _ _) (fun languages => cmdOnly_pure _)

/-! ## Concrete environments for witnesses and counterexamples -/

/-- Modelled from the spec: `snakeCaseToCamelCase` lives in the excluded
`config` module; per §4.3 the distro reader "converts each snake_case key to
camelCase" (the spec's §3 example maps `PRETTY_NAME` to `prettyName`). -/
def capitalizeChars : List Char → List Char
  | [] => []
  | c :: t => c.toUpper :: t

def snakeCaseToCamelCase (s : String) : String :=
  match splitOnChar '_' (s.data.map Char.toLower) with
  | [] => ""
  | h :: t => String.mk (h ++ (t.map capitalizeChars).flatten)

/-- A dependency specification requesting nothing. -/
def sampleDeps : DependencyInfoExtractionSettingsGroup :=
  { byKey := fun _ => none, npm := [], pip := [], pipx := [], gem := [],
    cargo := [], go := [], git := [], other := [], languages := [],
    manual := [] }

/-- A benign environment: every container interaction succeeds, every
configuration table is empty. -/
def sampleEnv : Env :=
  { run := fun _ => .ok ""
    now := "1700000000000"
    startResult := .ok ()
    removeResult := .ok ()
    inspectImage := fun _ => .ok "sha256:0a1b2c"
    inspectRepoDigests := fun _ => .ok "debian@sha256:0a1b2c"
    regex1 := fun _ _ => none
    regex2 := fun _ _ => none
    parseNpm := fun _ => .ok []
    parsePip := fun _ => .ok []
    pipxLine := fun _ => none
    snakeCaseToCamelCase := snakeCaseToCamelCase
    getLinuxPackageManagerForDistro := fun _ => "apt"
    getPackageInfoExtractorParams := fun _ =>
      ⟨"apt list --installed", "apt-get download --print-uris", "", ""⟩
    getFallbackPoolUrl := fun _ => none
    getPoolKeyForPoolUrl := fun _ => none
    depsStr := fun _ => none
    depsLinux := fun _ => none
    depsLookup := fun _ => none
    depsGit := fun _ => none
    depsOther := fun _ => none
    otherDefaultSettings := none }

/-! ## C1 — orchestrator cleanup -/

/-- **C1**, amended.  When the helper container starts and the `docker rm -f`
call itself succeeds, `removeProcessingContainer` is invoked on it exactly
once per run — whether the extraction body succeeds or throws — and a thrown
error is rethrown unmodified after the removal, while a successful body's
value is returned unchanged. -/
theorem getAllContentInfo_cleanup (env : Env) (imageTag : String)
    (dependencies : DependencyInfoExtractionSettingsGroup)
    (hstart : env.startResult = .ok ())
    (hremove : env.removeResult = .ok ()) :
    ((getAllContentInfo imageTag dependencies env).1.count
        (Event.removeC ("vscdc--extract--" ++ env.now)) = 1)
    ∧ (∀ e,
        (assembleContents dependencies ("vscdc--extract--" ++ env.now) env).2 = .error e →
        (getAllContentInfo imageTag dependencies env).2 = .error e)
    ∧ (∀ v,
        (assembleContents dependencies ("vscdc--extract--" ++ env.now) env).2 = .ok v →
        (getAllContentInfo imageTag dependencies env).2 = .ok v) := by
  have hno : (Event.removeC ("vscdc--extract--" ++ env.now)) ∉
      (assembleContents dependencies ("vscdc--extract--" ++ env.now) env).1 := by
    intro hmem
    obtain ⟨c, hc⟩ := assembleContents_cmdOnly dependencies _ env _ hmem
    simp at hc
  have hcount := List.count_eq_zero.mpr hno
  cases hres : (assembleContents dependencies ("vscdc--extract--" ++ env.now) env).2 with
  | error e =>
    refine ⟨?_, ?_, ?_⟩
    · simp [getAllContentInfo, hstart, hremove, hres, List.count_append,
        List.count_cons, hcount]
    · intro e' he'
      injection he' with he'
      subst he'
      simp [getAllContentInfo, hstart, hremove, hres]
    · intro v hv
      simp at hv
  | ok v =>
    refine ⟨?_, ?_, ?_⟩
    · simp [getAllContentInfo, hstart, hremove, hres, List.count_append,
        List.count_cons, hcount]
    · intro e' he'
      simp at he'
    · intro v' hv'
      injection hv' with hv'
      subst hv'
      simp [getAllContentInfo, hstart, hremove, hres]

/-- **C1**, witness: on a benign environment with an empty dependency
specification the helper container is removed exactly once and the assembled
contents are returned. -/
theorem getAllContentInfo_cleanup_witness :
    ((getAllContentInfo "debian:buster" sampleDeps sampleEnv).1.count
        (Event.removeC ("vscdc--extract--" ++ sampleEnv.now)) = 1) :=
  (getAllContentInfo_cleanup sampleEnv "debian:buster" sampleDeps rfl rfl).1

/-- **C1**, counterexample to the claim as stated.  The success-path
`removeProcessingContainer` call sits inside the `try` block, so when
`docker rm -f` itself fails after a run in which every extraction step
succeeded, the `catch` block invokes `removeProcessingContainer` a second
time on the same container — the removal is not invoked "exactly once" on
every run that successfully started the container, and the caller receives
the removal error. -/
theorem getAllContentInfo_cleanup_counterexample :
    (((getAllContentInfo "debian:buster" sampleDeps)
        { sampleEnv with removeResult := .error "docker rm -f failed" }).1.count
      (Event.removeC "vscdc--extract--1700000000000") = 2)
    ∧ ({ sampleEnv with removeResult := .error "docker rm -f failed" } : Env).startResult = .ok ()
    ∧ (((getAllContentInfo "debian:buster" sampleDeps)
        { sampleEnv with removeResult := .error "docker rm -f failed" }).2 =
      .error "docker rm -f failed") := by
  refine ⟨?_, rfl, ?_⟩ <;> rfl

/-! ## C10 — target classification in the command runner -/

theorem listIndexOf_ne_zero {hay needle : List Char}
    (hp : ¬ needle.isPrefixOf hay = true) : listIndexOf hay needle ≠ 0 := by
  cases hay with
  | nil =>
    rw [listIndexOf.eq_def, if_neg hp]
    show (-1 : Int) ≠ 0
    decide
  | cons x t =>
    rw [listIndexOf.eq_def, if_neg hp]
    show (let r := listIndexOf t needle; if r = -1 then -1 else r + 1) ≠ 0
    by_cases hr : listIndexOf t needle = -1
    all_goals simp only [hr, if_true, if_false, reduceIte]
    all_goals omega

theorem jsIndexOf_eq_zero_iff (s pat : String) :
    jsIndexOf s pat = 0 ↔ pat.data.isPrefixOf s.data = true := by
  constructor
  · intro h
    by_contra hp
    exact listIndexOf_ne_zero hp h
  · intro hp
    rw [jsIndexOf, listIndexOf.eq_def, if_pos hp]

/-- **C10**.  The command runner chooses `docker exec` exactly when the target
string starts with the literal container-name marker `vscdc--extract--`
(`indexOf(...) === 0`), and otherwise uses
`docker run --init --privileged --rm`; consequently an image tag that itself
starts with the marker is classified as a running helper container. -/
theorem commandRunArgs_classification (s : String) (forceRoot : Bool) :
    (isContainerName s = true ↔ "vscdc--extract--".data.isPrefixOf s.data = true)
    ∧ ((commandRunArgs s forceRoot).head? = some "exec" ↔
        "vscdc--extract--".data.isPrefixOf s.data = true)
    ∧ (¬ "vscdc--extract--".data.isPrefixOf s.data = true →
        commandRunArgs s forceRoot =
          ["run", "--init", "--privileged", "--rm"] ++
            (if forceRoot then ["-u", "root"] else []))
    ∧ isContainerName "vscdc--extract--myimage:latest" = true := by
  have hiff : isContainerName s = true ↔
      "vscdc--extract--".data.isPrefixOf s.data = true := by
    rw [isContainerName, decide_eq_true_iff]
    exact jsIndexOf_eq_zero_iff s "vscdc--extract--"
  refine ⟨hiff, ?_, ?_, by decide⟩
  · by_cases hc : isContainerName s = true
    · rw [commandRunArgs, if_pos hc]
      constructor
      · intro _
        exact hiff.mp hc
      · intro _
        rfl
    · rw [commandRunArgs, if_neg hc]
      constructor
      · intro h
        cases forceRoot <;> exact absurd h (by decide)
      · intro hp
        exact absurd (hiff.mpr hp) hc
  · intro hp
    have hc : ¬ isContainerName s = true := fun h => hp (hiff.mp h)
    rw [commandRunArgs, if_neg hc]

/-- **C10**, witness: an ordinary image tag is not classified as a container
and is addressed with `docker run --init --privileged --rm`. -/
theorem commandRunArgs_classification_witness :
    commandRunArgs "debian:buster" false =
      ["run", "--init", "--privileged", "--rm"] := by
  have h := (commandRunArgs_classification "debian:buster" false).2.2.1 (by decide)
  simpa using h

/-! ## C2 — command runner sentinel handling -/

/-- **C2**, amended.  The caller receives an error exactly when the spawned
process fails (exits non-zero): any spawn failure — in particular one in
which the BEGIN sentinel never appeared — propagates; but when the process
exits zero, the result is always text, computed as the trimmed
`substring(indexOf(BEGIN) + 11, indexOf(END))` with JavaScript semantics —
when the END sentinel is absent, `indexOf` returns `-1` and `substring`
swaps its clamped bounds, so the caller receives the text before/including
the BEGIN marker instead of an error. -/
theorem getCommandOutputFromContainer_results
    (spawn : List String → Except Err String) (t c : String) (fr : Bool) :
    (∀ e, spawn (commandRunArgs t fr ++ [t, wrappedCommand c]) = .error e →
      getCommandOutputFromContainer spawn t c fr = .error e)
    ∧ (∀ s, spawn (commandRunArgs t fr ++ [t, wrappedCommand c]) = .ok s →
      getCommandOutputFromContainer spawn t c fr =
        .ok (jsTrim (jsSubstring s (jsIndexOf s "~~~BEGIN~~~" + 11)
          (jsIndexOf s "~~~END~~~")))) := by
  constructor
  · intro e he
    rw [getCommandOutputFromContainer, he]
  · intro s hs
    rw [getCommandOutputFromContainer, hs]

/-- **C2**, witness: a failing spawn propagates its error, and a successful
spawn with well-framed output yields the payload between the sentinels. -/
theorem getCommandOutputFromContainer_results_witness :
    getCommandOutputFromContainer (fun _ => .error "exit code 1")
      "debian:buster" "cat /etc/os-release" true = .error "exit code 1"
    ∧ getCommandOutputFromContainer (fun _ => .ok "~~~BEGIN~~~\npayload\n\n~~~END~~~")
      "debian:buster" "cat /etc/os-release" true = .ok "payload" := by
  constructor
  · exact (getCommandOutputFromContainer_results (fun _ => .error "exit code 1")
      "debian:buster" "cat /etc/os-release" true).1 "exit code 1" rfl
  · have h := (getCommandOutputFromContainer_results
      (fun _ => .ok "~~~BEGIN~~~\npayload\n\n~~~END~~~")
      "debian:buster" "cat /etc/os-release" true).2
      "~~~BEGIN~~~\npayload\n\n~~~END~~~" rfl
    rw [h]
    rfl

/-- **C2**, counterexample to the claim as stated.  When the process exits
zero but the END sentinel is absent from the captured output, the caller
does not receive an error: `indexOf('~~~END~~~')` is `-1`, and JavaScript
`substring` clamps and swaps the bounds, returning the text up to and
including the BEGIN marker. -/
theorem getCommandOutputFromContainer_counterexample :
    getCommandOutputFromContainer (fun _ => .ok "~~~BEGIN~~~hello")
      "debian:buster" "cat /etc/os-release" false = .ok "~~~BEGIN~~~"
    ∧ jsIndexOf "~~~BEGIN~~~hello" "~~~END~~~" = -1 := by
  constructor <;> rfl

/-! ## C3 — empty merged request -/

@[simp] theorem CM.mapList_nil {α β : Type} (f : α → CM β) :
    CM.mapList f [] = (pure [] : CM (List β)) := rfl

theorem CM.mapList_cons {α β : Type} (f : α → CM β) (a : α) (l : List α) :
    CM.mapList f (a :: l) =
      f a >>= fun b => CM.mapList f l >>= fun bs => pure (b :: bs) := rfl

/-- **C3**, amended.  With an empty merged request (built-in defaults plus
caller entries), every extractor returns the empty list, and every extractor
except the go one does so without issuing any command; the go extractor still
issues the installer-log read (`cat .../go.log`) — its `!goPackages` guard
never fires because an empty object is truthy in JavaScript — and returns the
empty list only if that command succeeds, propagating its error otherwise. -/
theorem extractors_empty_request (env : Env) (t : String) (d : DistroInfo)
    (linuxPkgs : List LinuxPkgEntry) (npmPkgs pipPkgs gemPkgs : List String)
    (cargoPkgs goPkgs : List (String × Option String))
    (gitRepos : List (String × String))
    (otherList : List (String × Option OtherDependencyInfoExtractionSettings))
    (otherType : String) :
    ((env.depsLinux (env.getLinuxPackageManagerForDistro (distroId d))).getD []
        ++ linuxPkgs = [] →
      getLinuxPackageInfo t linuxPkgs d env = ([], .ok []))
    ∧ ((env.depsStr "npm").getD [] ++ npmPkgs = [] →
      getNpmGlobalPackageInfo t npmPkgs env = ([], .ok []))
    ∧ (∀ usePipx, (env.depsStr (if usePipx then "pipx" else "pip")).getD []
        ++ pipPkgs = [] →
      getPipPackageInfo t pipPkgs usePipx env = ([], .ok []))
    ∧ ((env.depsStr "gem").getD [] ++ gemPkgs = [] →
      getGemPackageInfo t gemPkgs env = ([], .ok []))
    ∧ (cargoMergedPackages env.depsLookup cargoPkgs = [] →
      getCargoPackageInfo t cargoPkgs env = ([], .ok []))
    ∧ (gitMergedRepos env.depsGit gitRepos = [] →
      getGitRepositoryInfo t gitRepos env = ([], .ok []))
    ∧ (otherMergedList env.depsOther otherType otherList = [] →
      getOtherDependencyInfo t otherList otherType env = ([], .ok []))
    ∧ (goMergedPackages env.depsLookup goPkgs = [] →
      getGoPackageInfo t goPkgs env =
        ([Event.cmd goLogCommand],
         (env.run goLogCommand).map (fun _ => []))) := by
  refine ⟨?_, ?_, ?_, ?_, ?_, ?_, ?_, ?_⟩
  · intro h
    obtain ⟨h1, h2⟩ := List.append_eq_nil.mp h
    simp [getLinuxPackageInfo, h1, h2]
  · intro h
    obtain ⟨h1, h2⟩ := List.append_eq_nil.mp h
    simp [getNpmGlobalPackageInfo, h1, h2]
  · intro usePipx h
    cases usePipx <;>
    · obtain ⟨h1, h2⟩ := List.append_eq_nil.mp (by simpa using h)
      simp [getPipPackageInfo, h1, h2]
  · intro h
    obtain ⟨h1, h2⟩ := List.append_eq_nil.mp h
    simp [getGemPackageInfo, h1, h2]
  · intro h
    simp [getCargoPackageInfo, h]
  · intro h
    simp [getGitRepositoryInfo, h]
  · intro h
    simp [getOtherDependencyInfo, h]
  · intro h
    cases hr : env.run goLogCommand <;>
      simp [getGoPackageInfo, h, hr, runCommand, Except.map]

/-- **C3**, witness: with empty defaults and empty caller lists every
extractor returns `[]`; all but the go extractor issue no command, the go
extractor issues exactly the log read. -/
theorem extractors_empty_request_witness :
    getLinuxPackageInfo "c" [] [] sampleEnv = ([], .ok [])
    ∧ getNpmGlobalPackageInfo "c" [] sampleEnv = ([], .ok [])
    ∧ getPipPackageInfo "c" [] false sampleEnv = ([], .ok [])
    ∧ getGemPackageInfo "c" [] sampleEnv = ([], .ok [])
    ∧ getCargoPackageInfo "c" [] sampleEnv = ([], .ok [])
    ∧ getGitRepositoryInfo "c" [] sampleEnv = ([], .ok [])
    ∧ getOtherDependencyInfo "c" [] "other" sampleEnv = ([], .ok [])
    ∧ getGoPackageInfo "c" [] sampleEnv = ([Event.cmd goLogCommand], .ok []) := by
  have h := extractors_empty_request sampleEnv "c" [] [] [] [] [] [] [] [] [] "other"
  refine ⟨h.1 rfl, h.2.1 rfl, h.2.2.1 false rfl, h.2.2.2.1 rfl, h.2.2.2.2.1 rfl,
    h.2.2.2.2.2.1 rfl, h.2.2.2.2.2.2.1 rfl, ?_⟩
  have hg := h.2.2.2.2.2.2.2 rfl
  simpa using hg

/-- **C3**, counterexample to the claim as stated: the go extractor, on an
empty merged request (no `go` defaults, no caller entries), still issues the
installer-log command against the container. -/
theorem extractors_empty_request_counterexample :
    goMergedPackages sampleEnv.depsLookup [] = []
    ∧ (getGoPackageInfo "c" [] sampleEnv).1 =
        [Event.cmd "cat /usr/local/etc/vscode-dev-containers/go.log"]
    ∧ (getGoPackageInfo "c" [] sampleEnv).1 ≠ [] := by
  refine ⟨rfl, rfl, ?_⟩
  intro h
  rw [show (getGoPackageInfo "c" [] sampleEnv).1 =
    [Event.cmd "cat /usr/local/etc/vscode-dev-containers/go.log"] from rfl] at h
  exact List.cons_ne_nil _ _ h

/-! ## C4 — which defaults the cargo extractor merges -/

/-- A default-dependency configuration in which the `cargo` and `go` keys
hold visibly different entries. -/
def splitDefaultsEnv : Env :=
  { sampleEnv with
    run := fun _ => .ok "gopls, v0.6.4",
    depsLookup := fun k =>
      if k = "go" then some [("golang.org/x/tools/gopls", none)]
      else if k = "cargo" then some [("rustfmt", none)]
      else none }

/-- **C4**, failing evidence.  The cargo extractor merges the defaults of the
`go` ecosystem, not its own: with distinct `cargo` and `go` default tables
and an empty caller list, the lookup it iterates holds the go default entry
and not the cargo one, and the extractor proceeds to probe the go-named
package with `<name> --version`. -/
theorem cargo_merges_go_defaults :
    cargoMergedPackages splitDefaultsEnv.depsLookup [] =
      [("golang.org/x/tools/gopls", none)]
    ∧ splitDefaultsEnv.depsLookup "cargo" = some [("rustfmt", none)]
    ∧ cargoMergedPackages splitDefaultsEnv.depsLookup [] ≠ [("rustfmt", none)]
    ∧ getCargoPackageInfo "c" [] splitDefaultsEnv =
        ([Event.cmd "golang.org/x/tools/gopls --version"],
         .ok [{ emptyPackageInfo with
                name := "golang.org/x/tools/gopls", version := some "0.6.4" }]) := by
  refine ⟨rfl, rfl, by decide, rfl⟩

/-! ## C5 — cargo and go version probes -/

/-- **C5**, amended.  For a cargo entry the chosen command (the explicit
probe when one is supplied and truthy, otherwise the generic
`<name> --version`) is run and the first semantic-version-shaped substring of
its output is taken as the version — also when an explicit probe was
supplied — a missing match being fatal; for a go entry with a truthy probe,
the probe's output is used verbatim as the version; for a go entry without
one, the version is mined from the installer log with the name-specific
regex and falls back to the literal `latest` without error. -/
theorem cargo_go_entry_versions (env : Env) (crate packageName log out : String)
    (probe : Option String) :
    (env.run (jsOrStr probe (crate ++ " --version")) = .ok out →
      cargoCrateInfo crate probe env =
        ([Event.cmd (jsOrStr probe (crate ++ " --version"))],
         match findSemver out with
         | some version =>
           .ok { emptyPackageInfo with name := crate, version := some version }
         | none => .error ("Could not extract information about crate " ++ crate)))
    ∧ (jsTruthyStr probe = true → env.run (probe.getD "") = .ok out →
      goPackageEntryInfo env.regex1 log packageName probe env =
        ([Event.cmd (probe.getD "")],
         .ok { emptyPackageInfo with name := packageName, version := some out }))
    ∧ (jsTruthyStr probe = false →
      goPackageEntryInfo env.regex1 log packageName probe env =
        ([], .ok { emptyPackageInfo with
          name := packageName
          version := some ((env.regex1 (goVersionPattern packageName) log).getD
            "latest") })) := by
  refine ⟨?_, ?_, ?_⟩
  · intro hrun
    cases hsem : findSemver out <;>
      simp [cargoCrateInfo, hrun, hsem]
  · intro htruthy hrun
    simp [goPackageEntryInfo, htruthy, hrun]
  · intro hfalsy
    simp [goPackageEntryInfo, hfalsy]

/-- **C5**, witness: a go entry with an explicit probe takes the probe's
output verbatim; a go entry without one and an unmatched log yields
`latest`; a cargo entry without a probe runs `<name> --version` and extracts
the semver-shaped substring. -/
theorem cargo_go_entry_versions_witness :
    goPackageEntryInfo sampleEnv.regex1 "log" "gopls" (some "gopls version")
        { sampleEnv with run := fun _ => .ok "0.6.4-pre" } =
      ([Event.cmd "gopls version"],
       .ok { emptyPackageInfo with name := "gopls", version := some "0.6.4-pre" })
    ∧ goPackageEntryInfo sampleEnv.regex1 "log" "gopls" none sampleEnv =
      ([], .ok { emptyPackageInfo with name := "gopls", version := some "latest" })
    ∧ cargoCrateInfo "rustfmt" none
        { sampleEnv with run := fun _ => .ok "rustfmt 1.4.17-stable" } =
      ([Event.cmd "rustfmt --version"],
       .ok { emptyPackageInfo with name := "rustfmt", version := some "1.4.17" }) := by
  refine ⟨?_, ?_, ?_⟩
  · have h := (cargo_go_entry_versions
      { sampleEnv with run := fun _ => .ok "0.6.4-pre" } "c" "gopls" "log"
      "0.6.4-pre" (some "gopls version")).2.1 rfl rfl
    simpa using h
  · have h := (cargo_go_entry_versions sampleEnv "c" "gopls" "log" "x" none).2.2 rfl
    simpa using h
  · have h := (cargo_go_entry_versions
      { sampleEnv with run := fun _ => .ok "rustfmt 1.4.17-stable" } "rustfmt" "p"
      "log" "rustfmt 1.4.17-stable" none).1 rfl
    simpa using h

/-- **C5**, counterexample to the claim as stated.  A cargo entry that
supplies an explicit version-probe command does not get the probe's stdout
as its version: the output is still filtered through the semver regex — a
probe output with no semver-shaped substring is a fatal error, and a probe
output containing one yields only that substring. -/
theorem cargo_probe_counterexample :
    cargoCrateInfo "mytool" (some "mytool --probe")
        { sampleEnv with run := fun c =>
            if c = "mytool --probe" then .ok "no digits here" else .ok "" } =
      ([Event.cmd "mytool --probe"],
       .error "Could not extract information about crate mytool")
    ∧ cargoCrateInfo "rustfmt" (some "rustfmt --probe")
        { sampleEnv with run := fun c =>
            if c = "rustfmt --probe" then .ok "rustfmt 1.4.17-stable" else .ok "" } =
      ([Event.cmd "rustfmt --probe"],
       .ok { emptyPackageInfo with name := "rustfmt", version := some "1.4.17" })
    ∧ (some "1.4.17" : Option String) ≠ some "rustfmt 1.4.17-stable" := by
  refine ⟨rfl, rfl, by decide⟩

/-! ## C6 — npm version resolution -/

/-- The imperative nested-search loop equals the first one-level hit over the
top-level packages in order. -/
theorem npmNestedSearch_eq_findSome (deps : List (String × NpmPackageJson))
    (name : String) :
    npmNestedSearch deps name =
      deps.findSome? (fun (pr : String × NpmPackageJson) => pr.2.dependencies.bind (fun pd => jsLookup pd name)) := by
  induction deps with
  | nil => rfl
  | cons pr rest ih =>
    cases hd : pr.2.dependencies with
    | none => simp [npmNestedSearch, List.findSome?_cons, hd, ih]
    | some pd =>
      cases hl : jsLookup pd name <;>
        simp [npmNestedSearch, List.findSome?_cons, hd, hl, ih]

/-- An environment whose npm listing parses to a single top-level package. -/
def npmEnv : Env :=
  { sampleEnv with
    run := fun _ => .ok "rawjson",
    parseNpm := fun _ => .ok [("a", NpmPackageJson.node (some "1.0.0") none)] }

/-- **C6**.  Each requested npm name is looked up at the top level of the
parsed dependency tree; when absent there, the first top-level package whose
own `dependencies` contain the name supplies the entry; a missing entry or a
missing version after this search is a thrown error, and otherwise the
produced record is the name together with the version found.  The npm
extractor applies exactly this resolution to every merged requested name. -/
theorem npm_resolution (deps : List (String × NpmPackageJson)) (raw name : String) :
    (npmResolve deps raw name =
      match (match jsLookup deps name with
             | some p => some p
             | none => deps.findSome?
                 (fun (pr : String × NpmPackageJson) => pr.2.dependencies.bind (fun pd => jsLookup pd name))) with
      | some p =>
        (match p.version with
         | some v => .ok { emptyPackageInfo with name := name, version := some v }
         | none => .error ("Unable to parse version for " ++ name ++
             " from npm ls output: " ++ raw))
      | none => .error ("Unable to parse version for " ++ name ++
          " from npm ls output: " ++ raw))
    ∧ (∀ (env : Env) (t : String) (namesIn : List String) (rawOut : String)
        (tree : List (String × NpmPackageJson)),
      (env.depsStr "npm").getD [] ++ namesIn ≠ [] →
      env.run (npmListCommand (((env.depsStr "npm").getD [] ++ namesIn).foldl
        (fun prev current => prev ++ " " ++ current) "")) = .ok rawOut →
      env.parseNpm rawOut = .ok tree →
      getNpmGlobalPackageInfo t namesIn env =
        ([Event.cmd (npmListCommand (((env.depsStr "npm").getD [] ++ namesIn).foldl
            (fun prev current => prev ++ " " ++ current) ""))],
         ((env.depsStr "npm").getD [] ++ namesIn).mapM (npmResolve tree rawOut))) := by
  constructor
  · rw [← npmNestedSearch_eq_findSome]
    cases hj : jsLookup deps name with
    | some p => cases hv : p.version <;> simp [npmResolve, hj, hv]
    | none =>
      cases hn : npmNestedSearch deps name with
      | some p => cases hv : p.version <;> simp [npmResolve, hj, hn, hv]
      | none => simp [npmResolve, hj, hn]
  · intro env t namesIn rawOut tree hne hrun hparse
    have hlen : ¬ ((env.depsStr "npm").getD [] ++ namesIn).length = 0 := by
      simpa [List.length_eq_zero] using hne
    rw [getNpmGlobalPackageInfo]
    simp only [CM.bind_apply, readEnv_apply, id_eq]
    rw [if_neg hlen]
    simp only [CM.bind_apply, runCommand_apply, hrun, liftExcept_apply, hparse,
      List.nil_append, List.append_nil]

/-- **C6**, witness: a top-level hit, a nested one-level hit, and the fatal
missing-version case, plus the extractor end-to-end over a one-package tree. -/
theorem npm_resolution_witness :
    getNpmGlobalPackageInfo "c" ["a"] npmEnv =
      ([Event.cmd (npmListCommand " a")],
       .ok [{ emptyPackageInfo with name := "a", version := some "1.0.0" }])
    ∧ npmResolve [("b", NpmPackageJson.node (some "2.0.0")
          (some [("a", NpmPackageJson.node (some "1.0.0") none)]))] "raw" "a" =
      .ok { emptyPackageInfo with name := "a", version := some "1.0.0" }
    ∧ npmResolve [("a", NpmPackageJson.node none none)] "raw" "a" =
      .error "Unable to parse version for a from npm ls output: raw" := by
  refine ⟨?_, ?_, ?_⟩
  · have h := (npm_resolution [] "" "").2 npmEnv "c" ["a"] "rawjson"
      [("a", NpmPackageJson.node (some "1.0.0") none)] (by decide) rfl rfl
    rw [h]
    rfl
  · have h := (npm_resolution [("b", NpmPackageJson.node (some "2.0.0")
      (some [("a", NpmPackageJson.node (some "1.0.0") none)]))] "raw" "a").1
    rw [h]
    rfl
  · have h := (npm_resolution [("a", NpmPackageJson.node none none)] "raw" "a").1
    rw [h]
    rfl

/-! ## C7 — Linux pool URL fallback and `cgIgnore` -/

/-- **C7**.  For a version line matched as `(name, version)`: the pool URL is
absent exactly when the substituted URI regex (package and version escaped,
`:` percent-encoded in the version) finds no match in the URI command output
and the static per-package fallback table has no entry; in that case an
error is thrown if and only if the entry's `cgIgnore` setting is the
explicit `false` — with no setting, `cgIgnore` defaults to `true` and the
record is still emitted, with no pool URL and only a warning logged. -/
theorem processLinuxVersionLine_fatal_iff
    (regex2 : String → String → Option (String × String))
    (regex1 : String → String → Option String)
    (fb pk : String → Option String)
    (params : LinuxPackageInfoExtractorParams)
    (settings : List (String × DependencyInfoExtractionSettings))
    (uriOut line packageName version : String)
    (hne : jsTrim line ≠ "")
    (hmatch : regex2 params.lineRegEx (jsTrim line) = some (packageName, version)) :
    (getPoolUrlFromPackageVersionListOutput regex1 fb uriOut params packageName version = none
      ↔ (regex1 (poolUriPattern params packageName version) uriOut = none
         ∧ fb packageName = none))
    ∧ ((getPoolUrlFromPackageVersionListOutput regex1 fb uriOut params packageName version = none
        ∧ ((jsLookup settings packageName).getD emptyDepSettings).cgIgnore = some false) →
      processLinuxVersionLine regex2 regex1 fb pk params settings uriOut line =
        .error "(!) No pool URL found to register package!")
    ∧ (¬ (getPoolUrlFromPackageVersionListOutput regex1 fb uriOut params packageName version = none
          ∧ ((jsLookup settings packageName).getD emptyDepSettings).cgIgnore = some false) →
      processLinuxVersionLine regex2 regex1 fb pk params settings uriOut line =
        .ok (some { emptyPackageInfo with
          name := packageName
          version := some version
          poolUrl := getPoolUrlFromPackageVersionListOutput regex1 fb uriOut
            params packageName version
          poolKeyUrl := (match getPoolUrlFromPackageVersionListOutput regex1 fb uriOut
              params packageName version with
            | some u => pk u
            | none => none)
          annotation := DependencyInfoExtractionSettings.annotation ((jsLookup settings packageName).getD emptyDepSettings)
          cgIgnore := some ((((jsLookup settings packageName).getD
            emptyDepSettings).cgIgnore).getD true)
          markdownIgnore := ((jsLookup settings packageName).getD
            emptyDepSettings).markdownIgnore })) := by
  refine ⟨?_, ?_, ?_⟩
  · cases hr : regex1 (poolUriPattern params packageName version) uriOut with
    | some u => simp [getPoolUrlFromPackageVersionListOutput, hr]
    | none =>
      cases hf : fb packageName <;>
        simp [getPoolUrlFromPackageVersionListOutput, hr, hf]
  · rintro ⟨hpool, hcg⟩
    unfold processLinuxVersionLine
    rw [if_neg hne]
    simp only [hmatch, hpool, hcg]
    rfl
  · intro hnot
    unfold processLinuxVersionLine
    rw [if_neg hne]
    simp only [hmatch]
    cases hpool : getPoolUrlFromPackageVersionListOutput regex1 fb uriOut
        params packageName version with
    | some u => simp [hpool]
    | none =>
      cases hcg : ((jsLookup settings packageName).getD emptyDepSettings).cgIgnore with
      | none => simp [hpool, hcg]
      | some b =>
        cases b with
        | false => exact absurd ⟨hpool, hcg⟩ hnot
        | true => simp [hpool, hcg]

/-- The version-line regex oracle of the witness: matches the spec's
`yarn 1.22.5-1` example. -/
def yarnRegex2 : String → String → Option (String × String) :=
  fun _ s => if s = "yarn 1.22.5-1" then some ("yarn", "1.22.5-1") else none

/-- **C7**, witness: with no matching URI and no fallback, an explicit
`cgIgnore: false` entry is fatal, while the settings-free default emits the
record with no pool URL and `cgIgnore: true`. -/
theorem processLinuxVersionLine_fatal_iff_witness :
    processLinuxVersionLine yarnRegex2 (fun _ _ => none) (fun _ => none)
        (fun _ => none) ⟨"", "", "", ""⟩
        [("yarn", ⟨"yarn", none, some false, none⟩)] "uris" "yarn 1.22.5-1" =
      .error "(!) No pool URL found to register package!"
    ∧ processLinuxVersionLine yarnRegex2 (fun _ _ => none) (fun _ => none)
        (fun _ => none) ⟨"", "", "", ""⟩ [] "uris" "yarn 1.22.5-1" =
      .ok (some { emptyPackageInfo with
        name := "yarn", version := some "1.22.5-1", cgIgnore := some true }) := by
  constructor
  · exact (processLinuxVersionLine_fatal_iff yarnRegex2 (fun _ _ => none)
      (fun _ => none) (fun _ => none) ⟨"", "", "", ""⟩
      [("yarn", ⟨"yarn", none, some false, none⟩)] "uris" "yarn 1.22.5-1"
      "yarn" "1.22.5-1" (by decide) rfl).2.1 ⟨rfl, rfl⟩
  · have h := (processLinuxVersionLine_fatal_iff yarnRegex2 (fun _ _ => none)
      (fun _ => none) (fun _ => none) ⟨"", "", "", ""⟩
      [] "uris" "yarn 1.22.5-1" "yarn" "1.22.5-1" (by decide) rfl).2.2
      (by rintro ⟨_, hcg⟩; cases hcg)
    rw [h]
    rfl

/-! ## C8 — os-release line parsing -/

theorem splitOnChar_of_not_mem {c : Char} {l : List Char} (h : c ∉ l) :
    splitOnChar c l = [l] := by
  induction l with
  | nil => rfl
  | cons x t ih =>
    have hx : ¬ x = c := fun e => h (e ▸ List.mem_cons_self x t)
    have ht : c ∉ t := fun m => h (List.mem_cons_of_mem _ m)
    simp [splitOnChar, hx, ih ht]

theorem splitOnChar_pair {c : Char} {a b : List Char} (ha : c ∉ a) (hb : c ∉ b) :
    splitOnChar c (a ++ c :: b) = [a, b] := by
  induction a with
  | nil => simp [splitOnChar, splitOnChar_of_not_mem hb]
  | cons x t ih =>
    have hx : ¬ x = c := fun e => ha (e ▸ List.mem_cons_self x t)
    have ht : c ∉ t := fun m => ha (List.mem_cons_of_mem _ m)
    simp [splitOnChar, hx, ih ht]

/-- **C8**, amended.  A line with exactly one `=` separator yields exactly one
entry: the key is the trimmed left-hand side run through the snake-case to
camel-case conversion, and the value is the right-hand side with **every**
double-quote character removed (the source's `replace(/"/g, '')`, not only
surrounding quotes) and then trimmed; a line whose `=`-count is not one
yields no entry and no error. -/
theorem osReleaseLineEntry_spec (conv : String → String) :
    (∀ a b : List Char, '=' ∉ a → '=' ∉ b →
      osReleaseLineEntry conv (String.mk (a ++ '=' :: b)) =
        some (conv (jsTrim (String.mk a)),
              jsTrim (jsReplaceAllChar (String.mk b) '"' "")))
    ∧ (∀ line : String, line.data.count '=' ≠ 1 →
      osReleaseLineEntry conv line = none) := by
  constructor
  · intro a b ha hb
    unfold osReleaseLineEntry
    simp [jsSplitChar, splitOnChar_pair ha hb]
  · intro line hc
    unfold osReleaseLineEntry
    have hlen : ¬ (jsSplitChar line '=').length = 2 := by
      rw [jsSplitChar, List.length_map, splitOnChar_length]
      omega
    rw [if_neg hlen]

/-- **C8**, witness: a quoted value line, a two-separator line, and a
separator-free line. -/
theorem osReleaseLineEntry_spec_witness :
    osReleaseLineEntry snakeCaseToCamelCase "VERSION_ID=\"10\"" =
      some ("versionId", "10")
    ∧ osReleaseLineEntry snakeCaseToCamelCase "A=b=c" = none
    ∧ osReleaseLineEntry snakeCaseToCamelCase "nonsense" = none := by
  have h := osReleaseLineEntry_spec snakeCaseToCamelCase
  refine ⟨?_, h.2 "A=b=c" (by decide), h.2 "nonsense" (by decide)⟩
  exact h.1 "VERSION_ID".data "\"10\"".data (by decide) (by decide)

/-- **C8**, counterexample to the claim as stated.  The source removes every
`"` from the value, not only surrounding quotes: for the line `ID=de"bian`,
whose right-hand side `de"bian` carries no surrounding quotes (and no
surrounding whitespace), the produced value is `debian`, not the
surrounding-quote-stripped `de"bian` the claim prescribes. -/
theorem osReleaseLineEntry_counterexample :
    osReleaseLineEntry snakeCaseToCamelCase "ID=de\"bian" = some ("id", "debian")
    ∧ jsTrim "de\"bian" = "de\"bian"
    ∧ ("debian" : String) ≠ "de\"bian" := by
  refine ⟨rfl, rfl, by decide⟩

/-! ## C9 — record shape of pip/pipx and gem extraction -/

theorem CM.mapList_cons_apply {α β : Type} (f : α → CM β) (a : α) (l : List α)
    (env : Env) :
    CM.mapList f (a :: l) env =
      match (f a env).2 with
      | .error e => ((f a env).1, .error e)
      | .ok b =>
        match (CM.mapList f l env).2 with
        | .error e => ((f a env).1 ++ (CM.mapList f l env).1, .error e)
        | .ok bs =>
          ((f a env).1 ++ ((CM.mapList f l env).1 ++ []), .ok (b :: bs)) := by
  rw [CM.mapList_cons, CM.bind_apply]
  cases hfa : (f a env).2 with
  | error e => rfl
  | ok b =>
    dsimp only
    rw [CM.bind_apply]
    cases hml : (CM.mapList f l env).2 with
    | error e => rfl
    | ok bs => rfl

/-- A successful `mapList` run relates inputs and outputs pointwise. -/
theorem CM.mapList_ok_forall {α β : Type} (f : α → CM β) (env : Env)
    (P : α → β → Prop) :
    ∀ l : List α, (∀ a ∈ l, ∀ r, (f a env).2 = .ok r → P a r) →
      ∀ tr rs, CM.mapList f l env = (tr, .ok rs) → List.Forall₂ P l rs := by
  intro l
  induction l with
  | nil =>
    intro hf tr rs h
    have h2 : (Except.ok [] : Except Err (List β)) = .ok rs := congrArg Prod.snd h
    injection h2 with h2
    subst h2
    exact List.Forall₂.nil
  | cons a l ih =>
    intro hf tr rs h
    rw [CM.mapList_cons_apply] at h
    cases hfa : (f a env).2 with
    | error e =>
      rw [hfa] at h
      have h2 := congrArg Prod.snd h
      simp at h2
    | ok b =>
      rw [hfa] at h
      cases hml : (CM.mapList f l env).2 with
      | error e =>
        rw [hml] at h
        have h2 := congrArg Prod.snd h
        simp at h2
      | ok bs =>
        rw [hml] at h
        have h2 := congrArg Prod.snd h
        simp only at h2
        injection h2 with h2
        subst h2
        refine List.Forall₂.cons (hf a (List.mem_cons_self a l) b hfa) ?_
        exact ih (fun a' ha' r hr => hf a' (List.mem_cons_of_mem _ ha') r hr)
          (CM.mapList f l env).1 bs (Prod.ext_iff.mpr ⟨rfl, hml⟩)

/-- **C9**.  The pip and pipx extractors resolve every merged requested name
against the installed-package lookup and never throw past a successful
listing: a name absent from the lookup yields a record whose version is
`undefined` while extraction continues; the produced record names are
exactly the merged requested names (hence non-empty whenever the requested
names are), and a successful gem extraction produces, for each merged
requested gem in order, a record carrying that gem's name and a present
version. -/
theorem pip_gem_records (env : Env) (t : String) (names gems : List String) :
    (∀ tr lookup, getPipVersionLookup env = (tr, .ok lookup) →
      (env.depsStr "pip").getD [] ++ names ≠ [] →
      getPipPackageInfo t names false env =
        (tr, .ok (((env.depsStr "pip").getD [] ++ names).map
          (fun packageName => { emptyPackageInfo with
            name := packageName, version := jsLookup lookup packageName }))))
    ∧ (∀ tr lookup, getPipxVersionLookup env = (tr, .ok lookup) →
      (env.depsStr "pipx").getD [] ++ names ≠ [] →
      getPipPackageInfo t names true env =
        (tr, .ok (((env.depsStr "pipx").getD [] ++ names).map
          (fun packageName => { emptyPackageInfo with
            name := packageName, version := jsLookup lookup packageName }))))
    ∧ (∀ (l : List String) (lookup : List (String × String)),
      (l.map (fun packageName => ({ emptyPackageInfo with
          name := packageName, version := jsLookup lookup packageName } : PackageInfo))).map
        PackageInfo.name = l)
    ∧ (∀ out tr rs, env.run gemListCommand = .ok out →
      (env.depsStr "gem").getD [] ++ gems ≠ [] →
      getGemPackageInfo t gems env = (tr, .ok rs) →
      List.Forall₂ (fun gem (r : PackageInfo) => r.name = gem ∧ r.version.isSome)
        ((env.depsStr "gem").getD [] ++ gems) rs) := by
  refine ⟨?_, ?_, ?_, ?_⟩
  · intro tr lookup hlk hne
    have hlen : ¬ ((env.depsStr "pip").getD [] ++ names).length = 0 := by
      simpa [List.length_eq_zero] using hne
    rw [getPipPackageInfo]
    simp only [CM.bind_apply, readEnv_apply, id_eq, Bool.false_eq_true, reduceIte]
    rw [if_neg hlen]
    simp only [CM.bind_apply, hlk, List.nil_append, List.append_nil, CM.pure_apply]
  · intro tr lookup hlk hne
    have hlen : ¬ ((env.depsStr "pipx").getD [] ++ names).length = 0 := by
      simpa [List.length_eq_zero] using hne
    rw [getPipPackageInfo]
    simp only [CM.bind_apply, readEnv_apply, id_eq, reduceIte]
    rw [if_neg hlen]
    simp only [CM.bind_apply, hlk, List.nil_append, List.append_nil, CM.pure_apply]
  · intro l lookup
    induction l with
    | nil => rfl
    | cons a l ih => simp [ih]
  · intro out tr rs hrun hne hres
    have hlen : ¬ ((env.depsStr "gem").getD [] ++ gems).length = 0 := by
      simpa [List.length_eq_zero] using hne
    rw [getGemPackageInfo] at hres
    simp only [CM.bind_apply, readEnv_apply, id_eq] at hres
    rw [if_neg hlen] at hres
    simp only [CM.bind_apply, runCommand_apply, hrun, List.nil_append] at hres
    have hsnd := congrArg Prod.snd hres
    simp only at hsnd
    refine CM.mapList_ok_forall _ env _ _ ?_ _ rs (Prod.ext_iff.mpr ⟨rfl, hsnd⟩)
    intro gem hmem r hr
    cases hra : env.regex1 (gemPattern gem) out with
    | none =>
      rw [hra] at hr
      simp [throwErr] at hr
    | some v =>
      rw [hra] at hr
      simp only [CM.pure_apply] at hr
      injection hr with hr
      subst hr
      exact ⟨rfl, rfl⟩

/-- Environments for the pip and gem witnesses. -/
def pipWEnv : Env :=
  { sampleEnv with
    run := fun _ => .ok "pipjson",
    parsePip := fun _ => .ok [("pylint", "2.6.0")] }

def gemWEnv : Env :=
  { sampleEnv with
    run := fun _ => .ok "rake (13.0.1, default: 13.0.1)",
    regex1 := fun p _ => if p = gemPattern "rake" then some "13.0.1" else none }

/-- **C9**, witness: a requested pip name present in the listing gets its
version, an absent one gets an `undefined` version without an error, and a
successful gem run yields name-matched records with versions. -/
theorem pip_gem_records_witness :
    getPipPackageInfo "c" ["pylint", "missing"] false pipWEnv =
      ([Event.cmd "pip list --format json"],
       .ok [{ emptyPackageInfo with name := "pylint", version := some "2.6.0" },
            { emptyPackageInfo with name := "missing", version := none }])
    ∧ List.Forall₂ (fun gem (r : PackageInfo) => r.name = gem ∧ r.version.isSome)
        ((gemWEnv.depsStr "gem").getD [] ++ ["rake"])
        [{ emptyPackageInfo with name := "rake", version := some "13.0.1" }] := by
  constructor
  · have h := (pip_gem_records pipWEnv "c" ["pylint", "missing"] []).1
      [Event.cmd "pip list --format json"] [("pylint", "2.6.0")] rfl (by decide)
    rw [h]
    rfl
  · exact (pip_gem_records gemWEnv "c" [] ["rake"]).2.2.2
      "rake (13.0.1, default: 13.0.1)" [Event.cmd gemListCommand]
      [{ emptyPackageInfo with name := "rake", version := some "13.0.1" }]
      rfl (by decide) rfl

end ImageInfoExtractor
